import Mathlib

/-!
A verification development for the answer-selection data pipeline
(`answer_selection/data_helpers.py`).

The Python functions are shallowly embedded as Lean functions:

* Python dictionaries become functions `κ → Option ν` updated with `updFun`
  (later writes overwrite earlier ones, as in Python);
* fallible operations (a `KeyError` on a dictionary lookup, an `IndexError`
  on an out-of-bounds array write) become `Option`/`Except` results, with
  `none`/`.error` marking the raised exception;
* `float` arithmetic is idealised as exact rational arithmetic over `ℚ`, and
  `math.log` is treated as an abstract function `ℚ → ℚ` passed as a
  parameter where it is needed;
* lists comprehensions and mutating loops become `mapM`/`foldl` over lists.
-/

set_option maxHeartbeats 1000000
set_option maxRecDepth 8000
set_option linter.unusedVariables false
set_option linter.unnecessarySimpa false

namespace AnswerSelection

/-- Python dictionary assignment `d[k] = v` on a dictionary modelled as a
function `κ → Option ν`: the new binding shadows any earlier one. -/
def updFun {κ ν : Type} [DecidableEq κ] (s : κ → Option ν) (k : κ) (v : ν) :
    κ → Option ν :=
  fun q => if q = k then some v else s q

/-- Split a character list on a single separator character, keeping empty
chunks, as Python `str.split(sep)` does for a one-character separator. -/
def splitChars (sep : Char) : List Char → List (List Char)
  | [] => [[]]
  | c :: cs =>
    if c = sep then [] :: splitChars sep cs
    else
      match splitChars sep cs with
      | [] => [[c]]
      | chunk :: rest => (c :: chunk) :: rest

/-- Python `s.split(sep)` for a one-character separator: always returns at
least one (possibly empty) field. -/
def pySplit (s : String) (sep : Char) : List String :=
  (splitChars sep s.toList).map (fun cs => String.mk cs)

/-- The numeric value of a decimal digit character, `none` otherwise. -/
def digitVal (c : Char) : Option Nat :=
  if '0' ≤ c ∧ c ≤ '9' then some (c.toNat - Char.toNat '0') else none

/-- The value of a non-empty all-digit character sequence, `none` on an
empty sequence or any non-digit. -/
def digitsToNat (cs : List Char) : Option Nat :=
  if cs = [] then none
  else cs.foldl
    (fun acc c => acc.bind (fun n => (digitVal c).map (fun d => 10 * n + d)))
    (some 0)

/-- Embedding of `toVec(tokens, vocab, maxlen)`: walks the token list,
emitting `vocab[token]` when present and `vocab["UNKNOWN"]` otherwise
(`none` models the `KeyError` raised when `"UNKNOWN"` is itself absent);
returns the count of consumed tokens together with the index vector.
The `maxlen` argument is accepted and ignored, exactly as in the source. -/
def toVec (tokens : List String) (vocab : String → Option Nat) (maxlen : Nat) :
    Option (Nat × List Nat) :=
  (tokens.mapM (fun tok =>
    match vocab tok with
    | some id => some id
    | none => vocab "UNKNOWN")).map
    (fun vec => (tokens.length, vec))

/-- Embedding of `normalize_vec(vec, maxlen)`: the input is returned as-is
when its length is exactly `maxlen`; otherwise a zero array of size `maxlen`
is filled by the loop `for i in range(len(vec)): new_vec[i] = vec[i]`, where
a write at an index `i ≥ maxlen` raises `IndexError`, modelled by `none`. -/
def normalize_vec (vec : List Nat) (maxlen : Nat) : Option (List Nat) :=
  if vec.length = maxlen then
    some vec
  else
    (List.range vec.length).foldlM
      (fun acc i => if i < maxlen then some (acc.set i (vec.getD i 0)) else none)
      (List.replicate maxlen 0)

/- ### Feature extraction: `word_count`, `common_words`, `word_freq`, `tfidf_feature` -/

/-- The Python list comprehension `[vec[i] for i in range(len)]`, where an
out-of-range index raises `IndexError`, modelled by `none`. -/
def indexList (vec : List Nat) (len : Nat) : Option (List Nat) :=
  (List.range len).mapM (fun i => vec[i]?)

/-- The Python set `set([vec[i] for i in range(len) if vec[i] > 100])`,
represented as its list of distinct elements. -/
def idFilterSet (vec : List Nat) (len : Nat) : Option (List Nat) :=
  (indexList vec len).map (fun l => (l.filter (fun x => decide (100 < x))).dedup)

/-- Embedding of `word_count(q_vec, a_vec, q_len, a_len, idf)`: builds the
two sets of distinct ids greater than 100 among the first `q_len` (resp.
`a_len`) positions, then accumulates over the question set a raw overlap
count and an IDF-weighted overlap count, both divided by
`max(|question set|, 1)`. -/
def word_count (qVec aVec : List Nat) (qLen aLen : Nat) (idf : Nat → Option ℚ) :
    Option (ℚ × ℚ) :=
  (idFilterSet qVec qLen).bind (fun q_set =>
    (idFilterSet aVec aLen).bind (fun a_set =>
      let new_q_len : ℚ := (max q_set.length 1 : Nat)
      let c := q_set.foldl
        (fun (c : ℚ × ℚ) id1 =>
          if id1 ∈ a_set then
            (c.1 + 1, match idf id1 with | some w => c.2 + w | none => c.2)
          else c)
        (0, 0)
      some (c.1 / new_q_len, c.2 / new_q_len)))

/-- Embedding of `common_words(q_vec, a_vec, q_len, a_len)`: the `> 100`
filtered question-set intersected with the answer-set, as a duplicate-free
list. -/
def common_words (qVec aVec : List Nat) (qLen aLen : Nat) : Option (List Nat) :=
  (idFilterSet qVec qLen).bind (fun q_set =>
    (idFilterSet aVec aLen).bind (fun a_set =>
      some (q_set.filter (fun x => decide (x ∈ a_set)))))

/-- The `word_freq` dictionary built by the first loop of `tfidf_feature`:
each id of `id_list` that belongs to `common_id_set` has its occurrence
count incremented (first occurrence writes 1). -/
def word_freq (idList commonIdSet : List Nat) : Nat → Option Nat :=
  idList.foldl
    (fun acc t =>
      if t ∈ commonIdSet then
        match acc t with
        | some c => updFun acc t (c + 1)
        | none => updFun acc t 1
      else acc)
    (fun _ => none)

/-- Embedding of `tfidf_feature(id_list, common_id_set, idf)`: iterates over
`common_id_set` and reads `word_freq[t]` for each member — a read of a key
never written raises `KeyError`, modelled by `none` — multiplying the count
by `idf[t]` when an IDF weight exists. The result dictionary is represented
as an association list in iteration order. -/
def tfidf_feature (idList commonIdSet : List Nat) (idf : Nat → Option ℚ) :
    Option (List (Nat × ℚ)) :=
  commonIdSet.mapM (fun t =>
    match word_freq idList commonIdSet t with
    | some c =>
      some (t, match idf t with
        | some w => (c : ℚ) * w
        | none => (c : ℚ))
    | none => none)

/-- The set of distinct ids greater than 100 among the first `len` entries
of `vec`, as a `Finset`; this is the specification-side reading of the
Python set comprehension in `word_count` and `common_words`. -/
def overlapSet (vec : List Nat) (len : Nat) : Finset Nat :=
  ((vec.take len).filter (fun x => decide (100 < x))).toFinset

/- ### Character encoding: `charVec` -/

/-- One row of the character grid of `charVec`: a zero row of width
`maxWordLength`, written in place by
`for idx, ch in enumerate(token): if ch in charVocab: row[idx] = charVocab[ch]`,
where `token` is the already-truncated character list `tokens[i][:maxWordLength]`. -/
def charRow (token : List Char) (charVocab : Char → Option Nat)
    (maxWordLength : Nat) : List Nat :=
  token.enum.foldl
    (fun row p =>
      match charVocab p.2 with
      | some cid => row.set p.1 cid
      | none => row)
    (List.replicate maxWordLength 0)

/-- Embedding of `charVec(tokens, charVocab, maxlen, maxWordLength)`: a
`maxlen × maxWordLength` zero grid and a `maxlen` vector of ones, overwritten
for each of the first `min(len(tokens), maxlen)` token positions with the
token's character-id row and its truncated character count.  The single
Python loop updates the two arrays independently, so it is rendered as two
folds over the same index range. -/
def charVec (tokens : List String) (charVocab : Char → Option Nat)
    (maxlen maxWordLength : Nat) : List (List Nat) × List Nat :=
  let n := min tokens.length maxlen
  ((List.range n).foldl
      (fun chars i =>
        chars.set i
          (charRow ((tokens.getD i "").toList.take maxWordLength) charVocab maxWordLength))
      (List.replicate maxlen (List.replicate maxWordLength 0)),
   (List.range n).foldl
      (fun wl i => wl.set i ((tokens.getD i "").toList.take maxWordLength).length)
      (List.replicate maxlen 1))

/- ### Vocabulary loading: `loadVocab` -/

/-- Python `int(field)` on a text field: an optional sign followed by one
or more decimal digits; `none` models the `ValueError` raised on a
non-integer field. -/
def pyInt (s : String) : Option Int :=
  match s.toList with
  | '-' :: rest => (digitsToNat rest).map (fun n => -(n : Int))
  | '+' :: rest => (digitsToNat rest).map (fun n => (n : Int))
  | cs => (digitsToNat cs).map (fun n => (n : Int))

/-- The per-line parse performed by the body of the `loadVocab` loop, in
source order: `int(fields[0])`, `fields[1]`, `int(fields[4])`,
`int(fields[3])`.  A line with fewer than 5 tab-separated fields fails one
of the accesses with `IndexError`, and a non-integer numeric field fails
`int(...)` with `ValueError`; both are modelled by `none`. -/
def parseVocabLine (line : String) : Option (Int × String × Int × Int) := do
  let fields := pySplit line '\t'
  let f0 ← fields[0]?
  let termId ← pyInt f0
  let term ← fields[1]?
  let f4 ← fields[4]?
  let totalDoc ← pyInt f4
  let f3 ← fields[3]?
  let docFreq ← pyInt f3
  pure (termId, term, totalDoc, docFreq)

/-- The `loadVocab` loop over the remaining lines, carrying the two
dictionaries built so far.  `math.log` is abstracted as a total function
`log : ℚ → ℚ` supplied by the caller. -/
def loadVocabAux (log : ℚ → ℚ) :
    List String → (String → Option Int) → (Int → Option ℚ) →
      Option ((String → Option Int) × (Int → Option ℚ))
  | [], vocab, idf => some (vocab, idf)
  | line :: rest, vocab, idf =>
    match parseVocabLine line with
    | some (termId, term, totalDoc, docFreq) =>
        loadVocabAux log rest (updFun vocab term termId)
          (updFun idf termId (log ((0.5 + (totalDoc : ℚ)) / (0.5 + (docFreq : ℚ)))))
    | none => none

/-- Embedding of `loadVocab(fname)` over the file's list of lines: builds
`vocab[term] = termId` and `idf[termId] = log((0.5 + totalDocs)/(0.5 + docFreq))`
per line, failing (and aborting the whole load) on the first malformed
line. -/
def loadVocab (log : ℚ → ℚ) (lines : List String) :
    Option ((String → Option Int) × (Int → Option ℚ)) :=
  loadVocabAux log lines (fun _ => none) (fun _ => none)

/- ### Answer pool loading: `loadAnswers` -/

/-- `fields[0]` of an answer-pool line: its key in the answer dictionary.
`split` never returns an empty list, so the access cannot fail. -/
def answerLineKey (line : String) : String := (pySplit line '\t').getD 0 ""

/-- The answer text taken from an answer-pool line: `fields[1]` when the
line has exactly 2 tab-separated fields, and the placeholder `"UNKNOWN"`
(after logging) otherwise. -/
def answerLineText (line : String) : String :=
  if (pySplit line '\t').length = 2 then (pySplit line '\t').getD 1 "" else "UNKNOWN"

/-- The first `maxlen` space-split tokens of an answer line's text:
`tokens[:maxlen]` in the source. -/
def answerLineTokens (maxlen : Nat) (line : String) : List String :=
  (pySplit (answerLineText line) ' ').take maxlen

/-- The `loadAnswers` loop over the remaining lines, carrying the answer
dictionary built so far. -/
def loadAnswersAux (vocab : String → Option Nat) (maxlen : Nat) :
    List String → (String → Option (Nat × List Nat × List String)) →
      Option (String → Option (Nat × List Nat × List String))
  | [], answers => some answers
  | line :: rest, answers =>
    match toVec (answerLineTokens maxlen line) vocab maxlen with
    | some (len1, vec) =>
        loadAnswersAux vocab maxlen rest
          (updFun answers (answerLineKey line) (len1, vec, answerLineTokens maxlen line))
    | none => none

/-- Embedding of `loadAnswers(fname, vocab, maxlen)` over the file's list
of lines: stores `(length, vector, truncated tokens)` under `fields[0]` for
every line, substituting the text `"UNKNOWN"` for malformed lines. -/
def loadAnswers (lines : List String) (vocab : String → Option Nat) (maxlen : Nat) :
    Option (String → Option (Nat × List Nat × List String)) :=
  loadAnswersAux vocab maxlen lines (fun _ => none)

/-- The record stored by `loadAnswers` for one line, written out: the
token count, the index vector (with `u = vocab["UNKNOWN"]` as fallback id)
and the truncated raw tokens. -/
def answerLineStored (vocab : String → Option Nat) (u maxlen : Nat) (line : String) :
    Nat × List Nat × List String :=
  ((answerLineTokens maxlen line).length,
   (answerLineTokens maxlen line).map (fun t => (vocab t).getD u),
   answerLineTokens maxlen line)

/- ### Dataset loading: `loadDataset` -/

/-- One well-formed line of the question/pair file, already split into its
four tab-separated fields `questionId, questionText, positiveIds, negativeIds`. -/
structure PairLine where
  q_id : String
  questionText : String
  posField : String
  negField : String
deriving DecidableEq

/-- The fatal errors of dataset construction: a referenced answer id absent
from the answer pool (`answers[aid]` raising `KeyError`), or the reserved
`"UNKNOWN"` entry missing from the vocabulary during question encoding. -/
inductive DataError where
  | MissingAnswerError : String → DataError
  | VocabKeyError : DataError
deriving DecidableEq

/-- One labeled training example as appended by `loadDataset`. -/
structure Example where
  q_id : String
  q_len : Nat
  q_vec : List Nat
  a_id : String
  a_len : Nat
  a_vec : List Nat
  label : ℚ
  q_tokens : List String
  a_tokens : List String
deriving DecidableEq

/-- The lookup `a_len, a_vec, a_tokens = answers[aid]` followed by the
append of one example; a missing id raises `MissingAnswerError`. -/
def mkExample (answers : String → Option (Nat × List Nat × List String))
    (q_id : String) (q_len : Nat) (q_vec : List Nat) (q_tokens : List String)
    (label : ℚ) (aid : String) : Except DataError Example :=
  match answers aid with
  | some (a_len, a_vec, a_tokens) =>
      .ok ⟨q_id, q_len, q_vec, aid, a_len, a_vec, label, q_tokens, a_tokens⟩
  | none => .error (.MissingAnswerError aid)

/-- One polarity side of a pair line: the literal field `"NA"` contributes
no examples, any other field is split on `|` and looked up id by id. -/
def sideExamples (answers : String → Option (Nat × List Nat × List String))
    (q_id : String) (q_len : Nat) (q_vec : List Nat) (q_tokens : List String)
    (label : ℚ) (field : String) : Except DataError (List Example) :=
  if field = "NA" then .ok []
  else (pySplit field '|').mapM
    (fun aid => mkExample answers q_id q_len q_vec q_tokens label aid)

/-- The body of the `loadDataset` loop for one pair line: encode the
question, then walk the pipe-separated negative ids (label 0.0) and then
the positive ids (label 1.0). -/
def datasetLine (vocab : String → Option Nat) (maxlen : Nat)
    (answers : String → Option (Nat × List Nat × List String))
    (line : PairLine) : Except DataError (List Example) :=
  match toVec ((pySplit line.questionText ' ').take maxlen) vocab maxlen with
  | none => .error .VocabKeyError
  | some (q_len, q_vec) => do
    let negs ← sideExamples answers line.q_id q_len q_vec
      ((pySplit line.questionText ' ').take maxlen) 0 line.negField
    let poss ← sideExamples answers line.q_id q_len q_vec
      ((pySplit line.questionText ' ').take maxlen) 1 line.posField
    pure (negs ++ poss)

/-- Embedding of `loadDataset(fname, vocab, maxlen, answers)`: the
concatenation of every line's examples, aborted by the first raised
error. -/
def loadDataset (vocab : String → Option Nat) (maxlen : Nat)
    (answers : String → Option (Nat × List Nat × List String)) :
    List PairLine → Except DataError (List Example)
  | [] => .ok []
  | line :: rest => do
    let exs ← datasetLine vocab maxlen answers line
    let more ← loadDataset vocab maxlen answers rest
    pure (exs ++ more)

/-- All answer ids referenced by one pair line (negative then positive
side), each side empty when its field is the literal `"NA"`. -/
def lineRefIds (line : PairLine) : List String :=
  (if line.negField = "NA" then [] else pySplit line.negField '|') ++
  (if line.posField = "NA" then [] else pySplit line.posField '|')

/- ### Batch generation: `batch_iter` -/

/-- Python `int(label)` on a float label: truncation toward zero. -/
def intOfLabel (q : ℚ) : Int := q.num / (q.den : Int)

/-- Embedding of `word_feature(id_list, tfidf)`: one `[present, value]` row
per id, `[1, tfidf[t]]` when the id has a TF-IDF entry and `[0, 0]`
otherwise. -/
def word_feature (idList : List Nat) (tfidf : List (Nat × ℚ)) : List (ℚ × ℚ) :=
  idList.map (fun t =>
    match tfidf.lookup t with
    | some v => (1, v)
    | none => (0, 0))

/-- The fourteen per-example values computed inside the batch loop, one
`Row` per dataset slice entry. -/
structure Row where
  new_q_vec : List Nat
  new_a_vec : List Nat
  q_len : Nat
  a_len : Nat
  label : ℚ
  weight : ℚ
  id_pair : String × String × Int
  extra : ℚ × ℚ
  q_feat : List (ℚ × ℚ)
  a_feat : List (ℚ × ℚ)
  q_char : List (List Nat)
  q_char_len : List Nat
  a_char : List (List Nat)
  a_char_len : List Nat
deriving DecidableEq

/-- One yielded batch: the fourteen column-aligned arrays, in yield
order. -/
structure Batch where
  x_question : List (List Nat)
  x_answer : List (List Nat)
  x_question_len : List Nat
  x_answer_len : List Nat
  targets : List ℚ
  target_weights : List ℚ
  id_pairs : List (String × String × Int)
  extra_feature : List (ℚ × ℚ)
  q_features : List (List (ℚ × ℚ))
  a_features : List (List (ℚ × ℚ))
  x_question_char : List (List (List Nat))
  x_question_char_len : List (List Nat)
  x_answer_char : List (List (List Nat))
  x_answer_char_len : List (List Nat)
deriving DecidableEq

/-- The per-example body of the batch loop, in source order: sample weight
by label sign, lexical overlap, common ids, TF-IDF map over the full
question vector, padded vectors, positional word features over the padded
vectors, character grids; any raised error (`KeyError`/`IndexError`)
aborts the generator, modelled by `none`. -/
def exampleRow (tlw : ℚ × ℚ) (idf : Nat → Option ℚ) (maxlen : Nat)
    (charVocab : Char → Option Nat) (mwl : Nat) (ex : Example) : Option Row := do
  let weight := if ex.label > 0 then tlw.2 else tlw.1
  let (wc1, wc2) ← word_count ex.q_vec ex.a_vec ex.q_len ex.a_len idf
  let common ← common_words ex.q_vec ex.a_vec ex.q_len ex.a_len
  let tfidf ← tfidf_feature ex.q_vec common idf
  let new_q ← normalize_vec ex.q_vec maxlen
  let new_a ← normalize_vec ex.a_vec maxlen
  let qcPair := charVec ex.q_tokens charVocab maxlen mwl
  let acPair := charVec ex.a_tokens charVocab maxlen mwl
  pure ⟨new_q, new_a, ex.q_len, ex.a_len, ex.label, weight,
    (ex.q_id, ex.a_id, intOfLabel ex.label), (wc1, wc2),
    word_feature new_q tfidf, word_feature new_a tfidf,
    qcPair.1, qcPair.2, acPair.1, acPair.2⟩

/-- Column assembly of one batch from its rows, preserving row order. -/
def mkBatch (rows : List Row) : Batch :=
  ⟨rows.map (fun r => r.new_q_vec), rows.map (fun r => r.new_a_vec),
   rows.map (fun r => r.q_len), rows.map (fun r => r.a_len),
   rows.map (fun r => r.label), rows.map (fun r => r.weight),
   rows.map (fun r => r.id_pair), rows.map (fun r => r.extra),
   rows.map (fun r => r.q_feat), rows.map (fun r => r.a_feat),
   rows.map (fun r => r.q_char), rows.map (fun r => r.q_char_len),
   rows.map (fun r => r.a_char), rows.map (fun r => r.a_char_len)⟩

/-- The dataset slice `data[start_index:end_index]` of one batch, with
`start_index = batch_num * batch_size` and
`end_index = min((batch_num + 1) * batch_size, data_size)`. -/
def batchSlice (d : List Example) (batchSize dataSize bn : Nat) : List Example :=
  (d.drop (bn * batchSize)).take (min ((bn + 1) * batchSize) dataSize - bn * batchSize)

/-- One batch of the generator: per-example rows over the slice, then
column assembly. -/
def batchOfSlice (tlw : ℚ × ℚ) (idf : Nat → Option ℚ) (maxlen : Nat)
    (charVocab : Char → Option Nat) (mwl : Nat) (slice : List Example) :
    Option Batch :=
  (slice.mapM (exampleRow tlw idf maxlen charVocab mwl)).map mkBatch

/-- All `num_batches_per_epoch` batches of one epoch, in yield order. -/
def epochBatches (tlw : ℚ × ℚ) (idf : Nat → Option ℚ) (maxlen : Nat)
    (charVocab : Char → Option Nat) (mwl : Nat) (d : List Example)
    (batchSize dataSize numBatches : Nat) : Option (List Batch) :=
  (List.range numBatches).mapM
    (fun bn => batchOfSlice tlw idf maxlen charVocab mwl
      (batchSlice d batchSize dataSize bn))

/-- The epoch loop of `batch_iter`: before each epoch the data list is
shuffled in place when shuffling is enabled — `random.shuffle` is modelled
by a caller-supplied permutation `shuffleFn` indexed by the epoch — and the
shuffled list is carried into the next epoch. -/
def batchIterAux (tlw : ℚ × ℚ) (idf : Nat → Option ℚ) (maxlen : Nat)
    (charVocab : Char → Option Nat) (mwl : Nat) (shuffle : Bool)
    (shuffleFn : Nat → List Example → List Example)
    (batchSize dataSize numBatches : Nat) :
    Nat → Nat → List Example → Option (List Batch)
  | 0, _, _ => some []
  | k + 1, epoch, d =>
    let d2 := if shuffle then shuffleFn epoch d else d
    (epochBatches tlw idf maxlen charVocab mwl d2 batchSize dataSize numBatches).bind
      (fun bs =>
        (batchIterAux tlw idf maxlen charVocab mwl shuffle shuffleFn
            batchSize dataSize numBatches k (epoch + 1) d2).map
          (fun rest => bs ++ rest))

/-- Embedding of `batch_iter(data, batch_size, num_epochs, ...)`: the flat
sequence of yielded batches, `num_batches_per_epoch = len(data)/batch_size + 1`
per epoch for `num_epochs` epochs; a raised error anywhere in the loop body
aborts the whole generator. -/
def batch_iter (data : List Example) (batchSize numEpochs : Nat) (tlw : ℚ × ℚ)
    (idf : Nat → Option ℚ) (maxlen : Nat) (charVocab : Char → Option Nat)
    (mwl : Nat) (shuffle : Bool)
    (shuffleFn : Nat → List Example → List Example) : Option (List Batch) :=
  batchIterAux tlw idf maxlen charVocab mwl shuffle shuffleFn batchSize
    data.length (data.length / batchSize + 1) numEpochs 0 data

/-- Well-formedness of one example as produced by the loaders: the recorded
lengths do not exceed the vectors, and the vectors fit in `maxlen`. -/
def exampleWF (maxlen : Nat) (ex : Example) : Prop :=
  ex.q_len ≤ ex.q_vec.length ∧ ex.a_len ≤ ex.a_vec.length ∧
    ex.q_vec.length ≤ maxlen ∧ ex.a_vec.length ≤ maxlen

instance (maxlen : Nat) (ex : Example) : Decidable (exampleWF maxlen ex) := by
  unfold exampleWF; infer_instance

/-- All fourteen columns of a batch have exactly `k` rows. -/
def Batch.aligned (b : Batch) (k : Nat) : Prop :=
  b.x_question.length = k ∧ b.x_answer.length = k ∧
    b.x_question_len.length = k ∧ b.x_answer_len.length = k ∧
    b.targets.length = k ∧ b.target_weights.length = k ∧
    b.id_pairs.length = k ∧ b.extra_feature.length = k ∧
    b.q_features.length = k ∧ b.a_features.length = k ∧
    b.x_question_char.length = k ∧ b.x_question_char_len.length = k ∧
    b.x_answer_char.length = k ∧ b.x_answer_char_len.length = k

instance (b : Batch) (k : Nat) : Decidable (Batch.aligned b k) := by
  unfold Batch.aligned; infer_instance

/- ### Generic helper lemmas -/

theorem mapM_eq_map {α β : Type} (f : α → Option β) (g : α → β) (l : List α)
    (hfg : ∀ a ∈ l, f a = some (g a)) : l.mapM f = some (l.map g) := by
  rw [← List.mapM'_eq_mapM]
  induction l with
  | nil => rfl
  | cons a l ih =>
    rw [List.mapM'_cons, hfg a (List.mem_cons_self a l),
      ih (fun b hb => hfg b (List.mem_cons_of_mem a hb))]
    rfl

theorem foldl_set_length {α : Type} (g : Nat → α) :
    ∀ (l : List Nat) (init : List α),
      (l.foldl (fun acc i => acc.set i (g i)) init).length = init.length
  | [], _ => rfl
  | i :: l, init => by
    simp [List.foldl_cons, foldl_set_length g l]

theorem range_foldl_set_getElem? {α : Type} (g : Nat → α) :
    ∀ (n : Nat) (init : List α), n ≤ init.length → ∀ j : Nat,
      ((List.range n).foldl (fun acc i => acc.set i (g i)) init)[j]? =
        if j < n then some (g j) else init[j]? := by
  intro n
  induction n with
  | zero => intro init _ j; simp
  | succ m ih =>
    intro init hlen j
    rw [List.range_succ, List.foldl_append, List.foldl_cons, List.foldl_nil]
    have hlen' : (List.foldl (fun acc i => acc.set i (g i)) init (List.range m)).length
        = init.length := foldl_set_length g _ init
    by_cases hj : j = m
    · subst hj
      rw [List.getElem?_set_self (by omega), if_pos (Nat.lt_succ_self j)]
    · rw [List.getElem?_set_ne (by omega), ih init (by omega) j]
      by_cases h1 : j < m
      · rw [if_pos h1, if_pos (Nat.lt_succ_of_lt h1)]
      · rw [if_neg h1, if_neg (by omega)]

theorem foldlM_if_some {σ : Type} (c : Nat → Prop) [DecidablePred c]
    (s : σ → Nat → σ) :
    ∀ (l : List Nat) (init : σ), (∀ i ∈ l, c i) →
      (l.foldlM (fun acc i => if c i then some (s acc i) else none) init) =
        some (l.foldl s init)
  | [], _, _ => rfl
  | i :: l, init, h => by
    have hc : c i := h i (List.mem_cons_self i l)
    simp only [List.foldlM_cons, if_pos hc, Option.bind_eq_bind,
      Option.some_bind, List.foldl_cons]
    exact foldlM_if_some c s l (s init i) (fun a ha => h a (List.mem_cons_of_mem i ha))

theorem foldlM_if_none {σ : Type} (c : Nat → Prop) [DecidablePred c]
    (s : σ → Nat → σ) :
    ∀ (l : List Nat) (init : σ), (∃ i ∈ l, ¬ c i) →
      (l.foldlM (fun acc i => if c i then some (s acc i) else none) init) = none
  | i :: l, init, h => by
    by_cases hc : c i
    · obtain ⟨a, ha, hna⟩ := h
      have ha' : a ∈ l := by
        rcases List.mem_cons.1 ha with rfl | h'
        · exact absurd hc hna
        · exact h'
      simp only [List.foldlM_cons, if_pos hc, Option.bind_eq_bind, Option.some_bind]
      exact foldlM_if_none c s l (s init i) ⟨a, ha', hna⟩
    · simp [List.foldlM_cons, if_neg hc]

/- ### Facts about `normalize_vec` -/

theorem normalize_vec_of_lt (vec : List Nat) (maxlen : Nat)
    (h : vec.length < maxlen) :
    normalize_vec vec maxlen = some (vec ++ List.replicate (maxlen - vec.length) 0) := by
  have hne : vec.length ≠ maxlen := Nat.ne_of_lt h
  rw [normalize_vec, if_neg hne,
    foldlM_if_some (fun i => i < maxlen) _ _ _
      (fun i hi => lt_of_lt_of_le (List.mem_range.1 hi) (le_of_lt h))]
  congr 1
  apply List.ext_getElem?
  intro j
  rw [range_foldl_set_getElem? (fun i => vec.getD i 0) vec.length
    (List.replicate maxlen 0) (by simpa using le_of_lt h) j]
  by_cases hc : j < vec.length
  · rw [if_pos hc, List.getElem?_append_left hc, List.getElem?_eq_getElem hc]
    simp [List.getD_eq_getElem?_getD, List.getElem?_eq_getElem hc]
  · rw [if_neg hc, List.getElem?_append_right (Nat.le_of_not_lt hc),
      List.getElem?_replicate, List.getElem?_replicate]
    rcases Nat.lt_or_ge j maxlen with h1 | h1
    · rw [if_pos h1, if_pos (by omega)]
    · rw [if_neg (by omega), if_neg (by omega)]

theorem normalize_vec_of_gt (vec : List Nat) (maxlen : Nat)
    (h : maxlen < vec.length) :
    normalize_vec vec maxlen = none := by
  have hne : vec.length ≠ maxlen := by omega
  rw [normalize_vec, if_neg hne]
  exact foldlM_if_none (fun i => i < maxlen) _ _ _
    ⟨maxlen, List.mem_range.2 h, by omega⟩

theorem normalize_vec_isSome_iff (vec : List Nat) (maxlen : Nat) :
    (normalize_vec vec maxlen).isSome = true ↔ vec.length ≤ maxlen := by
  rcases lt_trichotomy vec.length maxlen with h | h | h
  · rw [normalize_vec_of_lt vec maxlen h]; simp [le_of_lt h]
  · rw [normalize_vec, if_pos h]; simp [le_of_eq h]
  · rw [normalize_vec_of_gt vec maxlen h]; simp; omega

/-- Evaluation of `toVec` when the vocabulary contains `"UNKNOWN"`: the
call returns the token count and one index per token. -/
theorem toVec_eq (tokens : List String) (vocab : String → Option Nat)
    (maxlen u : Nat) (hu : vocab "UNKNOWN" = some u) :
    toVec tokens vocab maxlen =
      some (tokens.length, tokens.map (fun t => (vocab t).getD u)) := by
  have hm := mapM_eq_map
    (fun tok => match vocab tok with | some id => some id | none => vocab "UNKNOWN")
    (fun t => (vocab t).getD u) tokens
    (fun a _ => by cases h : vocab a <;> simp [h, hu])
  rw [toVec, hm]
  rfl

/-- C6: `toVec` (encodeWords), on any vocabulary containing the reserved
`"UNKNOWN"` entry, returns the token count as the length together with an
index vector with exactly one entry per input token — `vocab[token]` when the
token is known and `vocab["UNKNOWN"]` otherwise — and its output does not
depend on `maxLength` at all, so it neither pads nor truncates even when the
input is longer than `maxLength`. -/
theorem toVec_spec (tokens : List String) (vocab : String → Option Nat)
    (maxlen u : Nat) (hu : vocab "UNKNOWN" = some u) :
    toVec tokens vocab maxlen =
      some (tokens.length, tokens.map (fun t => (vocab t).getD u))
    ∧ (tokens.map (fun t => (vocab t).getD u)).length = tokens.length
    ∧ ∀ maxlen2 : Nat, toVec tokens vocab maxlen2 = toVec tokens vocab maxlen := by
  exact ⟨toVec_eq tokens vocab maxlen u hu, by simp, fun _ => rfl⟩

/-- Witness for C6 at a concrete input: three tokens, `maxlen = 2` smaller
than the token count, vocabulary mapping only `"cat"` and `"UNKNOWN"`. -/
theorem toVec_spec_witness :
    toVec ["cat", "dog", "cat"]
        (fun t => if t = "cat" then some 101 else if t = "UNKNOWN" then some 0 else none) 2 =
      some (3, [101, 0, 101]) := by
  have h := toVec_spec ["cat", "dog", "cat"]
    (fun t => if t = "cat" then some 101 else if t = "UNKNOWN" then some 0 else none)
    2 0 (by decide)
  rw [h.1]
  decide

/-- C8: `normalize_vec` (padOrTruncate) returns its input unchanged when the
input already has exactly `maxLength` entries; for every strictly shorter
input it returns the input copied left-aligned into a zero-filled vector of
`maxLength` entries; and it is idempotent on its own outputs: any vector it
returns is returned unchanged by a second application. -/
theorem normalize_vec_pad_idempotent (vec : List Nat) (maxlen : Nat) :
    (vec.length = maxlen → normalize_vec vec maxlen = some vec)
    ∧ (vec.length < maxlen →
        normalize_vec vec maxlen = some (vec ++ List.replicate (maxlen - vec.length) 0))
    ∧ (∀ w, normalize_vec vec maxlen = some w → normalize_vec w maxlen = some w) := by
  refine ⟨fun h => by rw [normalize_vec, if_pos h], normalize_vec_of_lt vec maxlen, ?_⟩
  intro w hw
  have hle : vec.length ≤ maxlen := by
    rw [← normalize_vec_isSome_iff, hw]; rfl
  have hwlen : w.length = maxlen := by
    rcases lt_or_eq_of_le hle with h | h
    · rw [normalize_vec_of_lt vec maxlen h] at hw
      have := Option.some_injective _ hw
      rw [← this]; simp; omega
    · rw [normalize_vec, if_pos h] at hw
      have := Option.some_injective _ hw
      rw [← this, h]
  rw [normalize_vec, if_pos hwlen]

/-- Witness for C8 at a concrete input: padding `[5, 6]` to length 4 and
re-applying `normalize_vec` to the padded result. -/
theorem normalize_vec_pad_idempotent_witness :
    normalize_vec [5, 6] 4 = some [5, 6, 0, 0]
    ∧ normalize_vec [5, 6, 0, 0] 4 = some [5, 6, 0, 0] := by
  have h1 := (normalize_vec_pad_idempotent [5, 6] 4).2.1 (by decide)
  have h2 := (normalize_vec_pad_idempotent [5, 6] 4).2.2 [5, 6, 0, 0]
  exact ⟨h1, h2 (by rw [h1]; decide)⟩

/-- C10: `normalize_vec` (padOrTruncate) returns normally exactly when the
input has at most `maxLength` entries; on every strictly longer input the
copy loop attempts a write past the end of the `maxLength`-sized array and
the call fails instead of returning a result. -/
theorem normalize_vec_overflow (vec : List Nat) (maxlen : Nat) :
    ((normalize_vec vec maxlen).isSome = true ↔ vec.length ≤ maxlen) := by
  exact normalize_vec_isSome_iff vec maxlen

theorem mapM'_eq_none {α β : Type} (f : α → Option β) :
    ∀ (l : List α) (a : α), a ∈ l → f a = none → List.mapM' f l = none := by
  intro l
  induction l with
  | nil => intro a ha; cases ha
  | cons b l ih =>
    intro a ha hfa
    rcases List.mem_cons.1 ha with rfl | h'
    · simp [List.mapM'_cons, hfa]
    · cases hfb : f b
      · simp [List.mapM'_cons, hfb]
      · simp [List.mapM'_cons, hfb, ih a h' hfa]

theorem mapM_eq_none {α β : Type} (f : α → Option β) (l : List α) (a : α)
    (ha : a ∈ l) (hfa : f a = none) : l.mapM f = none := by
  rw [← List.mapM'_eq_mapM]
  exact mapM'_eq_none f l a ha hfa

theorem mapM'_append_singleton {α β : Type} (f : α → Option β) (l : List α) (x : α) :
    List.mapM' f (l ++ [x]) =
      (List.mapM' f l).bind (fun bs => (f x).map (fun b => bs ++ [b])) := by
  induction l with
  | nil => cases hfx : f x <;> simp [List.mapM'_cons, hfx]
  | cons a l ih =>
    cases hfa : f a
    · simp [List.mapM'_cons, hfa]
    · cases hml : List.mapM' f l
      · simp [List.mapM'_cons, hfa, hml, ih]
      · cases hfx : f x <;> simp [List.mapM'_cons, hfa, hml, hfx, ih]

theorem indexList_eq_take (vec : List Nat) :
    ∀ len : Nat, len ≤ vec.length → indexList vec len = some (vec.take len) := by
  intro len
  induction len with
  | zero => intro _; rfl
  | succ m ih =>
    intro h
    have hm : m < vec.length := by omega
    have ihm := ih (by omega)
    rw [indexList, ← List.mapM'_eq_mapM] at ihm ⊢
    rw [List.range_succ, mapM'_append_singleton, ihm]
    rw [List.getElem?_eq_getElem hm, List.take_succ, List.getElem?_eq_getElem hm]
    rfl

theorem indexList_eq_none (vec : List Nat) (len : Nat) (h : vec.length < len) :
    indexList vec len = none := by
  exact mapM_eq_none _ _ vec.length (List.mem_range.2 h)
    (List.getElem?_eq_none (Nat.le_refl _))

/-- The list-level filtered intersection used by `word_count` and
`common_words` has the `Finset` intersection of the two overlap sets as its
set of elements. -/
theorem overlap_filter_toFinset (qVec aVec : List Nat) (qLen aLen : Nat) :
    ((((qVec.take qLen).filter (fun x => decide (100 < x))).dedup).filter
        (fun x => decide (x ∈ ((aVec.take aLen).filter (fun x => decide (100 < x))).dedup))).toFinset
      = overlapSet qVec qLen ∩ overlapSet aVec aLen := by
  ext x
  simp [overlapSet, List.mem_filter, List.mem_dedup, List.mem_toFinset]

theorem overlap_filter_nodup (qVec aVec : List Nat) (qLen aLen : Nat) :
    ((((qVec.take qLen).filter (fun x => decide (100 < x))).dedup).filter
        (fun x => decide (x ∈ ((aVec.take aLen).filter (fun x => decide (100 < x))).dedup))).Nodup :=
  List.Nodup.filter _ (List.nodup_dedup _)

theorem overlap_dedup_length (vec : List Nat) (len : Nat) :
    (((vec.take len).filter (fun x => decide (100 < x))).dedup).length
      = (overlapSet vec len).card := by
  rw [overlapSet]
  rw [← List.toFinset_card_of_nodup (List.nodup_dedup _)]
  congr 1
  ext x
  simp [List.mem_dedup]

/-- The accumulating loop of `word_count` computes the size of the filtered
intersection and the sum of the IDF weights over it. -/
theorem wc_foldl (aSet : List Nat) (idf : Nat → Option ℚ) :
    ∀ (l : List Nat) (c : ℚ × ℚ),
      l.foldl
        (fun (c : ℚ × ℚ) id1 =>
          if id1 ∈ aSet then
            (c.1 + 1, match idf id1 with | some w => c.2 + w | none => c.2)
          else c) c =
      (c.1 + ((l.filter (fun x => decide (x ∈ aSet))).length : ℚ),
       c.2 + ((l.filter (fun x => decide (x ∈ aSet))).map (fun i => (idf i).getD 0)).sum) := by
  intro l
  induction l with
  | nil => intro c; simp
  | cons a l ih =>
    intro c
    rw [List.foldl_cons]
    by_cases ha : a ∈ aSet
    · have hfc : List.filter (fun x => decide (x ∈ aSet)) (a :: l)
          = a :: List.filter (fun x => decide (x ∈ aSet)) l := by
        simp [List.filter_cons, ha]
      rw [if_pos ha, ih, hfc]
      cases hf : idf a with
      | none =>
        simp only [hf, List.length_cons, List.map_cons, List.sum_cons, Option.getD_none,
          Prod.mk.injEq]
        constructor
        · push_cast; ring
        · ring
      | some w =>
        simp only [hf, List.length_cons, List.map_cons, List.sum_cons, Option.getD_some,
          Prod.mk.injEq]
        constructor
        · push_cast; ring
        · ring
    · have hfc : List.filter (fun x => decide (x ∈ aSet)) (a :: l)
          = List.filter (fun x => decide (x ∈ aSet)) l := by
        simp [List.filter_cons, ha]
      rw [if_neg ha, ih, hfc]

/-- Evaluation of `word_count` in terms of the two overlap `Finset`s. -/
theorem word_count_eq (qVec aVec : List Nat) (qLen aLen : Nat)
    (idf : Nat → Option ℚ) (hq : qLen ≤ qVec.length) (ha : aLen ≤ aVec.length) :
    word_count qVec aVec qLen aLen idf =
      some (((overlapSet qVec qLen ∩ overlapSet aVec aLen).card : ℚ) /
              ((max (overlapSet qVec qLen).card 1 : Nat) : ℚ),
            (∑ i in overlapSet qVec qLen ∩ overlapSet aVec aLen, (idf i).getD 0) /
              ((max (overlapSet qVec qLen).card 1 : Nat) : ℚ)) := by
  have hqf : idFilterSet qVec qLen
      = some (((qVec.take qLen).filter (fun x => decide (100 < x))).dedup) := by
    rw [idFilterSet, indexList_eq_take qVec qLen hq]
    rfl
  have haf : idFilterSet aVec aLen
      = some (((aVec.take aLen).filter (fun x => decide (100 < x))).dedup) := by
    rw [idFilterSet, indexList_eq_take aVec aLen ha]
    rfl
  set qL := ((qVec.take qLen).filter (fun x => decide (100 < x))).dedup with hqL
  set aL := ((aVec.take aLen).filter (fun x => decide (100 < x))).dedup with haL
  have hcard : (qL.filter (fun x => decide (x ∈ aL))).length
      = (overlapSet qVec qLen ∩ overlapSet aVec aLen).card := by
    rw [← overlap_filter_toFinset qVec aVec qLen aLen]
    exact (List.toFinset_card_of_nodup (overlap_filter_nodup qVec aVec qLen aLen)).symm
  have hsum : ((qL.filter (fun x => decide (x ∈ aL))).map (fun i => (idf i).getD 0)).sum
      = ∑ i in overlapSet qVec qLen ∩ overlapSet aVec aLen, (idf i).getD 0 := by
    rw [← overlap_filter_toFinset qVec aVec qLen aLen]
    exact (List.sum_toFinset _ (overlap_filter_nodup qVec aVec qLen aLen)).symm
  have hfirst : word_count qVec aVec qLen aLen idf =
      some (((overlapSet qVec qLen ∩ overlapSet aVec aLen).card : ℚ) /
              ((max (overlapSet qVec qLen).card 1 : Nat) : ℚ),
            (∑ i in overlapSet qVec qLen ∩ overlapSet aVec aLen, (idf i).getD 0) /
              ((max (overlapSet qVec qLen).card 1 : Nat) : ℚ)) := by
    rw [word_count, hqf, haf]
    simp only [Option.some_bind]
    rw [wc_foldl aL idf qL (0, 0)]
    rw [hcard, hsum, overlap_dedup_length qVec qLen]
    norm_num
  exact hfirst

/-- C2: `word_count` (lexicalOverlap), whenever the two length arguments do
not exceed the corresponding vectors, returns exactly
`(|S_q ∩ S_a| / max(|S_q|, 1), (Σ_{id ∈ S_q ∩ S_a} idf[id]) / max(|S_q|, 1))`
where `S_q`/`S_a` are the sets of distinct ids greater than 100 among the
first `qLen`/`aLen` positions and absent IDF entries contribute 0; in
particular when the question has no id greater than 100 the result is
exactly `(0, 0)` and the denominator floors at 1 so no division by zero
occurs. -/
theorem word_count_spec (qVec aVec : List Nat) (qLen aLen : Nat)
    (idf : Nat → Option ℚ) (hq : qLen ≤ qVec.length) (ha : aLen ≤ aVec.length) :
    word_count qVec aVec qLen aLen idf =
      some (((overlapSet qVec qLen ∩ overlapSet aVec aLen).card : ℚ) /
              ((max (overlapSet qVec qLen).card 1 : Nat) : ℚ),
            (∑ i in overlapSet qVec qLen ∩ overlapSet aVec aLen, (idf i).getD 0) /
              ((max (overlapSet qVec qLen).card 1 : Nat) : ℚ))
    ∧ (overlapSet qVec qLen = ∅ → word_count qVec aVec qLen aLen idf = some (0, 0)) := by
  have hfirst := word_count_eq qVec aVec qLen aLen idf hq ha
  refine ⟨hfirst, fun h0 => ?_⟩
  rw [hfirst]
  simp [h0]

/-- Witness for C2 at a concrete input: question ids `[101, 102, 5]` (all
three positions used), answer ids `[101, 3]`, an IDF table defined only at
id 101. -/
theorem word_count_spec_witness :
    word_count [101, 102, 5] [101, 3] 3 2 (fun t => if t = 101 then some 3 else none) =
      some (((overlapSet [101, 102, 5] 3 ∩ overlapSet [101, 3] 2).card : ℚ) /
              ((max (overlapSet [101, 102, 5] 3).card 1 : Nat) : ℚ),
            (∑ i in overlapSet [101, 102, 5] 3 ∩ overlapSet [101, 3] 2,
                ((fun t => if t = 101 then some (3 : ℚ) else none) i).getD 0) /
              ((max (overlapSet [101, 102, 5] 3).card 1 : Nat) : ℚ)) :=
  (word_count_spec [101, 102, 5] [101, 3] 3 2 _ (by decide) (by decide)).1

/- ### Facts about `word_freq` and `tfidf_feature` -/

theorem word_freq_foldl (commonIdSet : List Nat) :
    ∀ (l : List Nat) (acc : Nat → Option Nat) (t : Nat),
      (l.foldl
        (fun acc t =>
          if t ∈ commonIdSet then
            match acc t with
            | some c => updFun acc t (c + 1)
            | none => updFun acc t 1
          else acc)
        acc) t =
      if t ∈ commonIdSet ∧ t ∈ l then some ((acc t).getD 0 + l.count t) else acc t := by
  intro l
  induction l with
  | nil => intro acc t; simp
  | cons a l ih =>
    intro acc t
    rw [List.foldl_cons]
    by_cases hac : a ∈ commonIdSet
    · rw [if_pos hac, ih]
      by_cases hta : t = a
      · subst hta
        have hacc' : (match acc t with
            | some c => updFun acc t (c + 1)
            | none => updFun acc t 1) t = some ((acc t).getD 0 + 1) := by
          cases h : acc t <;> simp [updFun, h]
        by_cases htl : t ∈ l
        · rw [if_pos ⟨hac, htl⟩, if_pos ⟨hac, List.mem_cons_self t l⟩, hacc']
          simp only [Option.getD_some, Option.some.injEq, List.count_cons_self]
          omega
        · rw [if_neg (fun hh => htl hh.2), if_pos ⟨hac, List.mem_cons_self t l⟩, hacc']
          simp only [Option.some.injEq, List.count_cons_self,
            List.count_eq_zero.2 htl]
      · have hacc' : (match acc a with
            | some c => updFun acc a (c + 1)
            | none => updFun acc a 1) t = acc t := by
          cases h : acc a <;> simp [updFun, h, hta]
        simp only [hacc', List.count_cons_of_ne hta, List.mem_cons, hta, false_or]
    · rw [if_neg hac, ih]
      by_cases hta : t = a
      · subst hta
        rw [if_neg (fun hh => hac hh.1), if_neg (fun hh => hac hh.1)]
      · simp only [List.mem_cons, hta, false_or, List.count_cons_of_ne hta]

theorem word_freq_eq (idList commonIdSet : List Nat) (t : Nat) :
    word_freq idList commonIdSet t =
      if t ∈ commonIdSet ∧ t ∈ idList then some (idList.count t) else none := by
  rw [word_freq, word_freq_foldl]
  by_cases h : t ∈ commonIdSet ∧ t ∈ idList
  · rw [if_pos h, if_pos h]
    simp
  · rw [if_neg h, if_neg h]

theorem lookup_map_self {β : Type} (h : Nat → β) :
    ∀ (l : List Nat) (t : Nat), t ∈ l →
      (l.map (fun x => (x, h x))).lookup t = some (h t) := by
  intro l
  induction l with
  | nil => intro t ht; cases ht
  | cons a l ih =>
    intro t ht
    rw [List.map_cons, List.lookup_cons]
    by_cases hta : t = a
    · subst hta; simp
    · have htl : t ∈ l := by
        rcases List.mem_cons.1 ht with h' | h'
        · exact absurd h' hta
        · exact h'
      have hbeq : (t == a) = false := beq_eq_false_iff_ne.2 hta
      simp [hbeq, ih t htl]

/-- Evaluation of `tfidf_feature` when every id of the common-id set occurs
in the id list: the association list pairing each common id with its scaled
occurrence count. -/
theorem tfidf_feature_eq (idList commonIdSet : List Nat) (idf : Nat → Option ℚ)
    (hsub : ∀ t ∈ commonIdSet, t ∈ idList) :
    tfidf_feature idList commonIdSet idf =
      some (commonIdSet.map (fun t => (t, match idf t with
        | some w => (idList.count t : ℚ) * w
        | none => (idList.count t : ℚ)))) := by
  rw [tfidf_feature]
  apply mapM_eq_map
  intro t ht
  rw [word_freq_eq idList commonIdSet t, if_pos ⟨ht, hsub t ht⟩]

/-- Evaluation of `common_words` as a filtered duplicate-free list. -/
theorem common_words_eq (qVec aVec : List Nat) (qLen aLen : Nat)
    (hq : qLen ≤ qVec.length) (ha : aLen ≤ aVec.length) :
    common_words qVec aVec qLen aLen =
      some ((((qVec.take qLen).filter (fun x => decide (100 < x))).dedup).filter
        (fun x => decide (x ∈ ((aVec.take aLen).filter (fun x => decide (100 < x))).dedup))) := by
  rw [common_words, idFilterSet, indexList_eq_take qVec qLen hq,
    idFilterSet, indexList_eq_take aVec aLen ha]
  rfl

/-- Every id produced by `common_words` occurs in the question vector. -/
theorem common_words_mem_qVec (qVec aVec : List Nat) (qLen aLen : Nat) (t : Nat)
    (ht : t ∈ (((qVec.take qLen).filter (fun x => decide (100 < x))).dedup).filter
        (fun x => decide (x ∈ ((aVec.take aLen).filter (fun x => decide (100 < x))).dedup))) :
    t ∈ qVec := by
  have h1 := List.mem_of_mem_filter ht
  rw [List.mem_dedup] at h1
  exact List.take_subset qLen qVec (List.mem_of_mem_filter h1)

/-- C1 counterexample: with an empty id list, the common-id set `{101}` and
an empty IDF table, `tfidf_feature` reads `word_freq[101]`, a key that was
never written, and fails with a `KeyError` (modelled by `none`) instead of
returning a map assigning 101 the occurrence count 0 — so the claim that the
call always returns normally with count 0 for ids absent from the id list is
false. -/
theorem tfidf_feature_missing_id_fails :
    tfidf_feature [] [101] (fun _ => none) = none := by
  rfl

/-- C1 (amended): whenever every id of the common-id set occurs in the id
list, `tfidf_feature` returns a map defined on every id of the common-id
set, assigning it its occurrence count in the id list times `idf[id]` when
an IDF weight exists and the raw count otherwise; an id of the common-id set
that does not occur in the id list instead makes the call fail with a
`KeyError` on the `word_freq` lookup (see the counterexample). -/
theorem tfidf_feature_spec (idList commonIdSet : List Nat) (idf : Nat → Option ℚ)
    (hsub : ∀ t ∈ commonIdSet, t ∈ idList) :
    ∃ m : List (Nat × ℚ),
      tfidf_feature idList commonIdSet idf = some m ∧
      ∀ t ∈ commonIdSet, m.lookup t =
        some (match idf t with
          | some w => (idList.count t : ℚ) * w
          | none => (idList.count t : ℚ)) := by
  refine ⟨_, tfidf_feature_eq idList commonIdSet idf hsub, ?_⟩
  intro t ht
  exact lookup_map_self _ commonIdSet t ht

/-- Witness for the amended C1 at a concrete input: id list
`[101, 102, 101]`, common-id set `[101]`, IDF table defined only at 101. -/
theorem tfidf_feature_spec_witness :
    ∃ m : List (Nat × ℚ),
      tfidf_feature [101, 102, 101] [101] (fun t => if t = 101 then some 2 else none)
        = some m ∧
      ∀ t ∈ [101], m.lookup t =
        some (match (if t = 101 then some (2 : ℚ) else none) with
          | some w => (([101, 102, 101].count t : ℚ)) * w
          | none => (([101, 102, 101].count t : ℚ))) :=
  tfidf_feature_spec [101, 102, 101] [101] _ (by decide)

theorem enumFrom_foldl_set (charVocab : Char → Option Nat) :
    ∀ (token : List Char) (k : Nat) (init : List Nat),
      k + token.length ≤ init.length → ∀ j : Nat,
      ((List.enumFrom k token).foldl
        (fun row p =>
          match charVocab p.2 with
          | some cid => row.set p.1 cid
          | none => row) init)[j]? =
      (match (if k ≤ j then token[j - k]? else none).bind charVocab with
        | some cid => some cid
        | none => init[j]?) := by
  intro token
  induction token with
  | nil =>
    intro k init hlen j
    rcases le_or_lt k j with hk | hk <;> simp [hk]
  | cons c token ih =>
    intro k init hlen j
    rw [List.length_cons] at hlen
    rw [List.enumFrom_cons, List.foldl_cons]
    have hlen' : ∀ init' : List Nat, init'.length = init.length →
        k + 1 + token.length ≤ init'.length := by
      intro i' hi'; rw [hi']; omega
    rcases Nat.lt_trichotomy j k with hjk | hjk | hjk
    · -- j < k : untouched on both sides
      have hk1 : ¬ k + 1 ≤ j := by omega
      have hk0 : ¬ k ≤ j := by omega
      cases hc : charVocab c
      · rw [ih k.succ init (hlen' init rfl) j]
        simp [hk1, hk0]
      · rw [ih k.succ _ (hlen' _ (by simp)) j]
        simp only [hk1, if_neg, if_false]
        simp only [Option.none_bind]
        rw [List.getElem?_set_ne (by omega)]
        simp [hk0]
    · -- j = k : the write of this step is visible
      subst hjk
      have hk1 : ¬ j + 1 ≤ j := by omega
      cases hc : charVocab c
      · rw [ih j.succ init (hlen' init rfl) j]
        simp [hk1, hc]
      · rw [ih j.succ _ (hlen' _ (by simp)) j]
        simp only [hk1, if_neg, if_false, Option.none_bind]
        rw [List.getElem?_set_self (by omega)]
        simp [hc]
    · -- j > k : this step's write is at another index
      have hk1 : k + 1 ≤ j := by omega
      have hk0 : k ≤ j := by omega
      have hidx : (c :: token)[j - k]? = token[j - (k + 1)]? := by
        have : j - k = (j - (k + 1)) + 1 := by omega
        rw [this, List.getElem?_cons_succ]
      cases hc : charVocab c
      · rw [ih k.succ init (hlen' init rfl) j]
        simp [hk1, hk0, hidx]
      · rw [ih k.succ _ (hlen' _ (by simp)) j]
        simp only [hk1, if_pos, hk0, hidx]
        cases hb : token[j - (k + 1)]?.bind charVocab
        · simp only [hb]
          rw [List.getElem?_set_ne (by omega)]
        · simp [hb]

theorem charRow_getElem? (charVocab : Char → Option Nat) (maxWordLength : Nat)
    (token : List Char) (hlen : token.length ≤ maxWordLength) (j : Nat) :
    (charRow token charVocab maxWordLength)[j]? =
      if j < maxWordLength then
        some (match token[j]? with
          | some ch => (charVocab ch).getD 0
          | none => 0)
      else none := by
  rw [charRow, show token.enum = List.enumFrom 0 token from rfl,
    enumFrom_foldl_set charVocab token 0 (List.replicate maxWordLength 0)
      (by simpa using hlen) j]
  simp only [Nat.zero_le, if_pos, Nat.sub_zero, List.getElem?_replicate]
  rcases Nat.lt_or_ge j token.length with hj | hj
  · rw [List.getElem?_eq_getElem hj]
    have hjm : j < maxWordLength := by omega
    cases hc : charVocab token[j] <;> simp [hc, hjm]
  · rw [List.getElem?_eq_none hj]
    rcases Nat.lt_or_ge j maxWordLength with hjm | hjm <;> simp [hjm]

/-- C7: `charVec` (encodeChars) returns a `maxLength × maxWordLength` grid
and a `maxLength` vector of word lengths such that, for each of the first
`min(len(tokens), maxLength)` token positions, row `i` holds the character
ids of the first `maxWordLength` characters of token `i` (0 for characters
absent from `charVocab` and 0 past the token's end), `wordLengths[i]` is the
length of token `i`'s truncated character span, and every position with no
token keeps an all-zero row and word length 1; tokens beyond `maxLength`
are ignored. -/
theorem charVec_spec (tokens : List String) (charVocab : Char → Option Nat)
    (maxlen maxWordLength : Nat) :
    (charVec tokens charVocab maxlen maxWordLength).1.length = maxlen
    ∧ (charVec tokens charVocab maxlen maxWordLength).2.length = maxlen
    ∧ (∀ i, i < min tokens.length maxlen →
        (charVec tokens charVocab maxlen maxWordLength).2[i]? =
            some (((tokens.getD i "").toList.take maxWordLength).length)
          ∧ ∀ j, j < maxWordLength →
            ((charVec tokens charVocab maxlen maxWordLength).1.getD i [])[j]? =
              some (match ((tokens.getD i "").toList.take maxWordLength)[j]? with
                | some ch => (charVocab ch).getD 0
                | none => 0))
    ∧ (∀ i, min tokens.length maxlen ≤ i → i < maxlen →
        (charVec tokens charVocab maxlen maxWordLength).2[i]? = some 1
          ∧ (charVec tokens charVocab maxlen maxWordLength).1[i]? =
              some (List.replicate maxWordLength 0)) := by
  have hn : min tokens.length maxlen ≤ maxlen := Nat.min_le_right _ _
  have h1 := range_foldl_set_getElem?
    (fun i => charRow ((tokens.getD i "").toList.take maxWordLength) charVocab maxWordLength)
    (min tokens.length maxlen)
    (List.replicate maxlen (List.replicate maxWordLength 0)) (by simpa using hn)
  have h2 := range_foldl_set_getElem?
    (fun i => ((tokens.getD i "").toList.take maxWordLength).length)
    (min tokens.length maxlen)
    (List.replicate maxlen 1) (by simpa using hn)
  refine ⟨?_, ?_, ?_, ?_⟩
  · rw [charVec, foldl_set_length]; simp
  · rw [charVec, foldl_set_length]; simp
  · intro i hi
    constructor
    · rw [charVec, h2 i, if_pos hi]
    · intro j hj
      have hrow : (charVec tokens charVocab maxlen maxWordLength).1.getD i []
          = charRow ((tokens.getD i "").toList.take maxWordLength) charVocab maxWordLength := by
        rw [List.getD_eq_getElem?_getD, charVec, h1 i, if_pos hi]
        rfl
      rw [hrow, charRow_getElem? charVocab maxWordLength _
        (by simpa using Nat.min_le_left _ _) j, if_pos hj]
  · intro i hi hilt
    constructor
    · rw [charVec, h2 i, if_neg (by omega), List.getElem?_replicate, if_pos hilt]
    · rw [charVec, h1 i, if_neg (by omega), List.getElem?_replicate, if_pos hilt]

/-- Witness for C7 at a concrete input: tokens `["ab", ""]` (the second is
an empty token at a used position), character vocabulary defined only at
`a`, grid `3 × 2`.  The empty token's word length is its span length 0; the
unused third row keeps word length 1 and an all-zero row. -/
theorem charVec_spec_witness :
    (charVec ["ab", ""] (fun ch => if ch = 'a' then some 5 else none) 3 2).2[0]? = some 2
    ∧ (charVec ["ab", ""] (fun ch => if ch = 'a' then some 5 else none) 3 2).2[1]? = some 0
    ∧ (charVec ["ab", ""] (fun ch => if ch = 'a' then some 5 else none) 3 2).2[2]? = some 1
    ∧ ((charVec ["ab", ""] (fun ch => if ch = 'a' then some 5 else none) 3 2).1.getD 0 [])[0]? = some 5
    ∧ ((charVec ["ab", ""] (fun ch => if ch = 'a' then some 5 else none) 3 2).1.getD 0 [])[1]? = some 0
    ∧ (charVec ["ab", ""] (fun ch => if ch = 'a' then some 5 else none) 3 2).1[2]? =
        some [0, 0] := by
  have H := charVec_spec ["ab", ""] (fun ch => if ch = 'a' then some 5 else none) 3 2
  refine ⟨((H.2.2.1 0 (by decide)).1).trans (by decide),
          ((H.2.2.1 1 (by decide)).1).trans (by decide),
          (H.2.2.2 2 (by decide) (by decide)).1,
          ((H.2.2.1 0 (by decide)).2 0 (by decide)).trans (by decide),
          ((H.2.2.1 0 (by decide)).2 1 (by decide)).trans (by decide),
          ((H.2.2.2 2 (by decide) (by decide)).2).trans (by decide)⟩

/- ### Facts about `loadVocab` -/

theorem loadVocabAux_none (log : ℚ → ℚ) :
    ∀ (lines : List String) (vocab : String → Option Int) (idf : Int → Option ℚ),
      (∃ l ∈ lines, parseVocabLine l = none) →
      loadVocabAux log lines vocab idf = none := by
  intro lines
  induction lines with
  | nil => intro _ _ h; obtain ⟨l, hl, _⟩ := h; cases hl
  | cons line rest ih =>
    intro vocab idf h
    cases hp : parseVocabLine line with
    | none => simp [loadVocabAux, hp]
    | some p =>
      obtain ⟨l, hl, hln⟩ := h
      rcases List.mem_cons.1 hl with rfl | hl2
      · rw [hp] at hln; cases hln
      · obtain ⟨tid, term, td, df⟩ := p
        simp only [loadVocabAux, hp]
        exact ih _ _ ⟨l, hl2, hln⟩

theorem loadVocabAux_some (log : ℚ → ℚ) :
    ∀ (lines : List String) (vocab : String → Option Int) (idf : Int → Option ℚ),
      (∀ l ∈ lines, (parseVocabLine l).isSome = true) →
      ∃ v i, loadVocabAux log lines vocab idf = some (v, i) := by
  intro lines
  induction lines with
  | nil => intro vocab idf _; exact ⟨vocab, idf, rfl⟩
  | cons line rest ih =>
    intro vocab idf h
    have hline := h line (List.mem_cons_self line rest)
    cases hp : parseVocabLine line with
    | none => rw [hp] at hline; cases hline
    | some p =>
      obtain ⟨tid, term, td, df⟩ := p
      simp only [loadVocabAux, hp]
      exact ih _ _ (fun l hl => h l (List.mem_cons_of_mem line hl))

theorem loadVocabAux_vocab_stable (log : ℚ → ℚ) :
    ∀ (lines : List String) (vocab : String → Option Int) (idf : Int → Option ℚ)
      (v : String → Option Int) (i : Int → Option ℚ),
      loadVocabAux log lines vocab idf = some (v, i) →
      ∀ term : String,
        term ∉ lines.filterMap (fun l => (parseVocabLine l).map (fun p => p.2.1)) →
        v term = vocab term := by
  intro lines
  induction lines with
  | nil =>
    intro vocab idf v i h term _
    rw [loadVocabAux] at h
    obtain ⟨hv, _⟩ := Prod.mk.injEq .. ▸ Option.some_injective _ h
    rw [← hv]
  | cons line rest ih =>
    intro vocab idf v i h term hterm
    cases hp : parseVocabLine line with
    | none => rw [loadVocabAux, hp] at h; cases h
    | some p =>
      obtain ⟨tid, tm, td, df⟩ := p
      rw [loadVocabAux, hp] at h
      rw [List.filterMap_cons, hp] at hterm
      simp only [Option.map_some'] at hterm
      rw [List.mem_cons] at hterm
      push_neg at hterm
      rw [ih _ _ v i h term hterm.2]
      exact if_neg hterm.1

theorem loadVocabAux_idf_stable (log : ℚ → ℚ) :
    ∀ (lines : List String) (vocab : String → Option Int) (idf : Int → Option ℚ)
      (v : String → Option Int) (i : Int → Option ℚ),
      loadVocabAux log lines vocab idf = some (v, i) →
      ∀ termId : Int,
        termId ∉ lines.filterMap (fun l => (parseVocabLine l).map (fun p => p.1)) →
        i termId = idf termId := by
  intro lines
  induction lines with
  | nil =>
    intro vocab idf v i h termId _
    rw [loadVocabAux] at h
    obtain ⟨_, hi⟩ := Prod.mk.injEq .. ▸ Option.some_injective _ h
    rw [← hi]
  | cons line rest ih =>
    intro vocab idf v i h termId hterm
    cases hp : parseVocabLine line with
    | none => rw [loadVocabAux, hp] at h; cases h
    | some p =>
      obtain ⟨tid, tm, td, df⟩ := p
      rw [loadVocabAux, hp] at h
      rw [List.filterMap_cons, hp] at hterm
      simp only [Option.map_some'] at hterm
      rw [List.mem_cons] at hterm
      push_neg at hterm
      rw [ih _ _ v i h termId hterm.2]
      exact if_neg hterm.1

theorem loadVocabAux_mem (log : ℚ → ℚ) :
    ∀ (lines : List String) (vocab : String → Option Int) (idf : Int → Option ℚ)
      (v : String → Option Int) (i : Int → Option ℚ),
      loadVocabAux log lines vocab idf = some (v, i) →
      (lines.filterMap (fun l => (parseVocabLine l).map (fun p => p.2.1))).Nodup →
      (lines.filterMap (fun l => (parseVocabLine l).map (fun p => p.1))).Nodup →
      ∀ l ∈ lines, ∀ termId term totalDoc docFreq,
        parseVocabLine l = some (termId, term, totalDoc, docFreq) →
          v term = some termId ∧
          i termId = some (log ((0.5 + (totalDoc : ℚ)) / (0.5 + (docFreq : ℚ)))) := by
  intro lines
  induction lines with
  | nil => intro _ _ _ _ _ _ _ l hl; cases hl
  | cons line rest ih =>
    intro vocab idf v i h hnd1 hnd2 l hl termId term totalDoc docFreq hparse
    cases hp : parseVocabLine line with
    | none => rw [loadVocabAux, hp] at h; cases h
    | some p =>
      obtain ⟨tid, tm, td, df⟩ := p
      rw [loadVocabAux, hp] at h
      rw [List.filterMap_cons, hp] at hnd1 hnd2
      simp only [Option.map_some'] at hnd1 hnd2
      have hnd1' := List.nodup_cons.1 hnd1
      have hnd2' := List.nodup_cons.1 hnd2
      rcases List.mem_cons.1 hl with rfl | hl2
      · rw [hparse] at hp
        have hq := Option.some_injective _ hp
        simp only [Prod.mk.injEq] at hq
        obtain ⟨rfl, rfl, rfl, rfl⟩ := hq
        constructor
        · rw [loadVocabAux_vocab_stable log rest _ _ v i h term hnd1'.1]
          simp [updFun]
        · rw [loadVocabAux_idf_stable log rest _ _ v i h termId hnd2'.1]
          simp [updFun]
      · exact ih _ _ v i h hnd1'.2 hnd2'.2 l hl2 termId term totalDoc docFreq hparse

/-- C5: `loadVocab` fails (a `MalformedLineError`, aborting the whole load)
on every input containing a line with fewer than 5 tab-separated fields or
a non-integer id, docFreq or totalDocs field; and on every input whose
lines all parse, it returns dictionaries with `vocab[term] = id` and
`idf[id] = log((0.5 + totalDocs) / (0.5 + docFreq))` for each line (stated
here for inputs whose terms and ids are not repeated, so that no later
line overwrites the binding). -/
theorem loadVocab_spec (log : ℚ → ℚ) (lines : List String) :
    ((∃ l ∈ lines, parseVocabLine l = none) → loadVocab log lines = none)
    ∧ ((∀ l ∈ lines, (parseVocabLine l).isSome = true) →
        ∃ vocab idf, loadVocab log lines = some (vocab, idf) ∧
          ((lines.filterMap (fun l => (parseVocabLine l).map (fun p => p.2.1))).Nodup →
           (lines.filterMap (fun l => (parseVocabLine l).map (fun p => p.1))).Nodup →
           ∀ l ∈ lines, ∀ termId term totalDoc docFreq,
             parseVocabLine l = some (termId, term, totalDoc, docFreq) →
               vocab term = some termId ∧
               idf termId = some (log ((0.5 + (totalDoc : ℚ)) / (0.5 + (docFreq : ℚ)))))) := by
  constructor
  · intro h
    exact loadVocabAux_none log lines _ _ h
  · intro hall
    obtain ⟨v, i, hv⟩ := loadVocabAux_some log lines _ _ hall
    exact ⟨v, i, hv, fun hnd1 hnd2 =>
      loadVocabAux_mem log lines _ _ v i hv hnd1 hnd2⟩

/-- Witness for C5 at concrete inputs: a well-formed two-line vocabulary
file (with `log` instantiated as the identity function) and a malformed
one-line input with only 2 fields. -/
theorem loadVocab_spec_witness :
    (∃ vocab idf,
      loadVocab (fun q => q) ["7\tcat\tx\t2\t9", "8\tdog\tx\t1\t9"] = some (vocab, idf) ∧
        vocab "cat" = some 7 ∧ vocab "dog" = some 8 ∧
        idf 7 = some ((0.5 + (9 : ℚ)) / (0.5 + (2 : ℚ))) ∧
        idf 8 = some ((0.5 + (9 : ℚ)) / (0.5 + (1 : ℚ))))
    ∧ loadVocab (fun q => q) ["7\tcat"] = none := by
  constructor
  · obtain ⟨vocab, idf, hl, hprop⟩ :=
      (loadVocab_spec (fun q => q) ["7\tcat\tx\t2\t9", "8\tdog\tx\t1\t9"]).2 (by decide)
    have h1 := hprop (by decide) (by decide) "7\tcat\tx\t2\t9" (by decide) 7 "cat" 9 2
      (by decide)
    have h2 := hprop (by decide) (by decide) "8\tdog\tx\t1\t9" (by decide) 8 "dog" 9 1
      (by decide)
    refine ⟨vocab, idf, hl, h1.1, h2.1, ?_, ?_⟩
    · rw [h1.2]; exact congrArg some (by push_cast; ring)
    · rw [h2.2]; exact congrArg some (by push_cast; ring)
  · exact (loadVocab_spec (fun q => q) ["7\tcat"]).1 ⟨"7\tcat", by decide, by decide⟩

/- ### Facts about `loadAnswers` -/

theorem loadAnswersAux_some (vocab : String → Option Nat) (maxlen u : Nat)
    (hu : vocab "UNKNOWN" = some u) :
    ∀ (lines : List String) (answers : String → Option (Nat × List Nat × List String)),
      ∃ pool, loadAnswersAux vocab maxlen lines answers = some pool := by
  intro lines
  induction lines with
  | nil => intro answers; exact ⟨answers, rfl⟩
  | cons line rest ih =>
    intro answers
    rw [loadAnswersAux, toVec_eq _ vocab maxlen u hu]
    exact ih _

theorem loadAnswersAux_stable (vocab : String → Option Nat) (maxlen u : Nat)
    (hu : vocab "UNKNOWN" = some u) :
    ∀ (lines : List String) (answers pool : String → Option (Nat × List Nat × List String)),
      loadAnswersAux vocab maxlen lines answers = some pool →
      ∀ k, k ∉ lines.map answerLineKey → pool k = answers k := by
  intro lines
  induction lines with
  | nil =>
    intro answers pool h k _
    rw [loadAnswersAux] at h
    rw [← Option.some_injective _ h]
  | cons line rest ih =>
    intro answers pool h k hk
    rw [loadAnswersAux, toVec_eq _ vocab maxlen u hu] at h
    rw [List.map_cons, List.mem_cons] at hk
    push_neg at hk
    rw [ih _ pool h k hk.2]
    simp only [updFun]
    rw [if_neg hk.1]

theorem loadAnswersAux_mem (vocab : String → Option Nat) (maxlen u : Nat)
    (hu : vocab "UNKNOWN" = some u) :
    ∀ (lines : List String) (answers pool : String → Option (Nat × List Nat × List String)),
      loadAnswersAux vocab maxlen lines answers = some pool →
      (lines.map answerLineKey).Nodup →
      ∀ l ∈ lines, pool (answerLineKey l) = some (answerLineStored vocab u maxlen l) := by
  intro lines
  induction lines with
  | nil => intro _ _ _ _ l hl; cases hl
  | cons line rest ih =>
    intro answers pool h hnd l hl
    rw [loadAnswersAux, toVec_eq _ vocab maxlen u hu] at h
    rw [List.map_cons] at hnd
    have hnd2 := List.nodup_cons.1 hnd
    rcases List.mem_cons.1 hl with rfl | hl2
    · rw [loadAnswersAux_stable vocab maxlen u hu rest _ pool h _ hnd2.1]
      simp [updFun, answerLineStored]
    · exact ih _ pool h hnd2.2 l hl2

/-- C9: `loadAnswers` treats every line without exactly 2 tab-separated
fields non-fatally: the whole load returns normally on every input, and
each line stores an entry keyed by its first field whose text is the line's
own second field when the line is well-formed and the placeholder `"UNKNOWN"`
otherwise, encoded over the text's first `maxLength` space-split tokens
(stated for line keys that are not repeated, so that no later line
overwrites the entry). -/
theorem loadAnswers_spec (lines : List String) (vocab : String → Option Nat)
    (maxlen u : Nat) (hu : vocab "UNKNOWN" = some u) :
    ∃ pool, loadAnswers lines vocab maxlen = some pool ∧
      ((lines.map answerLineKey).Nodup →
        ∀ l ∈ lines, pool (answerLineKey l) = some (answerLineStored vocab u maxlen l)) := by
  obtain ⟨pool, hp⟩ := loadAnswersAux_some vocab maxlen u hu lines _
  exact ⟨pool, hp, fun hnd l hl =>
    loadAnswersAux_mem vocab maxlen u hu lines _ pool hp hnd l hl⟩

/-- Witness for C9 at a concrete input: a well-formed line, a line with no
tab at all and a line with three fields; the malformed lines are stored
under their first field with the substituted text `"UNKNOWN"`. -/
theorem loadAnswers_spec_witness :
    ∃ pool,
      loadAnswers ["a1\tthe cat", "badline", "a3\tx\ty"]
        (fun t => if t = "cat" then some 101 else if t = "the" then some 5
          else if t = "UNKNOWN" then some 0 else none) 5 = some pool ∧
      pool "a1" = some (2, [5, 101], ["the", "cat"]) ∧
      pool "badline" = some (1, [0], ["UNKNOWN"]) ∧
      pool "a3" = some (1, [0], ["UNKNOWN"]) := by
  obtain ⟨pool, hp, hmem⟩ := loadAnswers_spec ["a1\tthe cat", "badline", "a3\tx\ty"]
    (fun t => if t = "cat" then some 101 else if t = "the" then some 5
      else if t = "UNKNOWN" then some 0 else none) 5 0 (by decide)
  refine ⟨pool, hp, ?_, ?_, ?_⟩
  · exact (hmem (by decide) "a1\tthe cat" (by decide)).trans (by decide)
  · exact (hmem (by decide) "badline" (by decide)).trans (by decide)
  · exact (hmem (by decide) "a3\tx\ty" (by decide)).trans (by decide)

/- ### Facts about `loadDataset` -/

theorem mapM_mkExample_ok (answers : String → Option (Nat × List Nat × List String))
    (q_id : String) (q_len : Nat) (q_vec : List Nat) (q_tokens : List String)
    (label : ℚ) :
    ∀ ids : List String, (∀ aid ∈ ids, (answers aid).isSome = true) →
      ∃ exs, ids.mapM
          (fun aid => mkExample answers q_id q_len q_vec q_tokens label aid) =
        Except.ok exs := by
  intro ids
  induction ids with
  | nil => intro _; exact ⟨[], rfl⟩
  | cons a ids ih =>
    intro h
    have ha := h a (List.mem_cons_self a ids)
    obtain ⟨exs, hexs⟩ := ih (fun b hb => h b (List.mem_cons_of_mem a hb))
    rw [← List.mapM'_eq_mapM] at hexs ⊢
    cases hans : answers a with
    | none => rw [hans] at ha; cases ha
    | some rec =>
      obtain ⟨a_len, a_vec, a_tokens⟩ := rec
      refine ⟨⟨q_id, q_len, q_vec, a, a_len, a_vec, label, q_tokens, a_tokens⟩ :: exs, ?_⟩
      rw [List.mapM'_cons, hexs]
      simp [mkExample, hans]
      rfl

theorem mapM_mkExample_error (answers : String → Option (Nat × List Nat × List String))
    (q_id : String) (q_len : Nat) (q_vec : List Nat) (q_tokens : List String)
    (label : ℚ) :
    ∀ ids : List String, (∃ aid ∈ ids, answers aid = none) →
      ∃ aid, answers aid = none ∧
        ids.mapM (fun aid => mkExample answers q_id q_len q_vec q_tokens label aid) =
          Except.error (DataError.MissingAnswerError aid) := by
  intro ids
  induction ids with
  | nil => intro h; obtain ⟨a, ha, _⟩ := h; cases ha
  | cons a ids ih =>
    intro h
    cases hans : answers a with
    | none =>
      refine ⟨a, hans, ?_⟩
      rw [← List.mapM'_eq_mapM, List.mapM'_cons]
      simp only [mkExample, hans]
      rfl
    | some rec =>
      obtain ⟨b, hb, hbn⟩ := h
      have hb2 : b ∈ ids := by
        rcases List.mem_cons.1 hb with rfl | h2
        · rw [hans] at hbn; cases hbn
        · exact h2
      obtain ⟨aid, hna, hmap⟩ := ih ⟨b, hb2, hbn⟩
      obtain ⟨a_len, a_vec, a_tokens⟩ := rec
      refine ⟨aid, hna, ?_⟩
      rw [← List.mapM'_eq_mapM] at hmap ⊢
      rw [List.mapM'_cons, hmap]
      simp [mkExample, hans]
      rfl

theorem sideExamples_ok (answers : String → Option (Nat × List Nat × List String))
    (q_id : String) (q_len : Nat) (q_vec : List Nat) (q_tokens : List String)
    (label : ℚ) (field : String)
    (h : ∀ aid ∈ (if field = "NA" then ([] : List String) else pySplit field '|'),
      (answers aid).isSome = true) :
    ∃ exs, sideExamples answers q_id q_len q_vec q_tokens label field =
      Except.ok exs := by
  rw [sideExamples]
  by_cases hna : field = "NA"
  · rw [if_pos hna]; exact ⟨[], rfl⟩
  · rw [if_neg hna]
    rw [if_neg hna] at h
    exact mapM_mkExample_ok answers q_id q_len q_vec q_tokens label _ h

theorem sideExamples_error (answers : String → Option (Nat × List Nat × List String))
    (q_id : String) (q_len : Nat) (q_vec : List Nat) (q_tokens : List String)
    (label : ℚ) (field : String)
    (h : ∃ aid ∈ (if field = "NA" then ([] : List String) else pySplit field '|'),
      answers aid = none) :
    ∃ aid, answers aid = none ∧
      sideExamples answers q_id q_len q_vec q_tokens label field =
        Except.error (DataError.MissingAnswerError aid) := by
  rw [sideExamples]
  by_cases hna : field = "NA"
  · rw [if_pos hna] at h; obtain ⟨a, ha, _⟩ := h; cases ha
  · rw [if_neg hna] at h ⊢
    exact mapM_mkExample_error answers q_id q_len q_vec q_tokens label _ h

theorem datasetLine_refIds_split (line : PairLine) (aid : String)
    (h : aid ∈ lineRefIds line) :
    aid ∈ (if line.negField = "NA" then ([] : List String) else pySplit line.negField '|')
    ∨ aid ∈ (if line.posField = "NA" then ([] : List String) else pySplit line.posField '|') := by
  rw [lineRefIds] at h
  exact List.mem_append.1 h

theorem datasetLine_eval (vocab : String → Option Nat) (maxlen u : Nat)
    (answers : String → Option (Nat × List Nat × List String)) (line : PairLine)
    (hu : vocab "UNKNOWN" = some u) :
    datasetLine vocab maxlen answers line =
      (sideExamples answers line.q_id ((pySplit line.questionText ' ').take maxlen).length
          (((pySplit line.questionText ' ').take maxlen).map (fun t => (vocab t).getD u))
          ((pySplit line.questionText ' ').take maxlen) 0 line.negField).bind
        (fun negs =>
          (sideExamples answers line.q_id
              ((pySplit line.questionText ' ').take maxlen).length
              (((pySplit line.questionText ' ').take maxlen).map (fun t => (vocab t).getD u))
              ((pySplit line.questionText ' ').take maxlen) 1 line.posField).bind
            (fun poss => Except.ok (negs ++ poss))) := by
  rw [datasetLine, toVec_eq _ vocab maxlen u hu]
  rfl

theorem datasetLine_error (vocab : String → Option Nat) (maxlen u : Nat)
    (answers : String → Option (Nat × List Nat × List String)) (line : PairLine)
    (hu : vocab "UNKNOWN" = some u)
    (h : ∃ aid ∈ lineRefIds line, answers aid = none) :
    ∃ aid, answers aid = none ∧
      datasetLine vocab maxlen answers line =
        Except.error (DataError.MissingAnswerError aid) := by
  rw [datasetLine_eval vocab maxlen u answers line hu]
  by_cases hneg : ∃ aid ∈ (if line.negField = "NA" then ([] : List String)
      else pySplit line.negField '|'), answers aid = none
  · obtain ⟨aid, hna, hse⟩ := sideExamples_error answers line.q_id
      ((pySplit line.questionText ' ').take maxlen).length
      (((pySplit line.questionText ' ').take maxlen).map (fun t => (vocab t).getD u))
      ((pySplit line.questionText ' ').take maxlen) 0 line.negField hneg
    exact ⟨aid, hna, by rw [hse]; rfl⟩
  · push_neg at hneg
    have hnegall : ∀ aid ∈ (if line.negField = "NA" then ([] : List String)
        else pySplit line.negField '|'), (answers aid).isSome = true := by
      intro aid haid
      cases hans : answers aid with
      | none => exact absurd hans (hneg aid haid)
      | some rec => rfl
    obtain ⟨negs, hok⟩ := sideExamples_ok answers line.q_id
      ((pySplit line.questionText ' ').take maxlen).length
      (((pySplit line.questionText ' ').take maxlen).map (fun t => (vocab t).getD u))
      ((pySplit line.questionText ' ').take maxlen) 0 line.negField hnegall
    have hpos : ∃ aid ∈ (if line.posField = "NA" then ([] : List String)
        else pySplit line.posField '|'), answers aid = none := by
      obtain ⟨aid, haid, hans⟩ := h
      rcases datasetLine_refIds_split line aid haid with h1 | h1
      · exact absurd hans (hneg aid h1)
      · exact ⟨aid, h1, hans⟩
    obtain ⟨aid, hna, hse⟩ := sideExamples_error answers line.q_id
      ((pySplit line.questionText ' ').take maxlen).length
      (((pySplit line.questionText ' ').take maxlen).map (fun t => (vocab t).getD u))
      ((pySplit line.questionText ' ').take maxlen) 1 line.posField hpos
    exact ⟨aid, hna, by rw [hok, hse]; rfl⟩

theorem datasetLine_ok (vocab : String → Option Nat) (maxlen u : Nat)
    (answers : String → Option (Nat × List Nat × List String)) (line : PairLine)
    (hu : vocab "UNKNOWN" = some u)
    (h : ∀ aid ∈ lineRefIds line, (answers aid).isSome = true) :
    ∃ exs, datasetLine vocab maxlen answers line = Except.ok exs := by
  rw [datasetLine_eval vocab maxlen u answers line hu]
  have hneg : ∀ aid ∈ (if line.negField = "NA" then ([] : List String)
      else pySplit line.negField '|'), (answers aid).isSome = true := by
    intro aid haid
    exact h aid (by rw [lineRefIds]; exact List.mem_append.2 (Or.inl haid))
  have hpos : ∀ aid ∈ (if line.posField = "NA" then ([] : List String)
      else pySplit line.posField '|'), (answers aid).isSome = true := by
    intro aid haid
    exact h aid (by rw [lineRefIds]; exact List.mem_append.2 (Or.inr haid))
  obtain ⟨negs, hok1⟩ := sideExamples_ok answers line.q_id
    ((pySplit line.questionText ' ').take maxlen).length
    (((pySplit line.questionText ' ').take maxlen).map (fun t => (vocab t).getD u))
    ((pySplit line.questionText ' ').take maxlen) 0 line.negField hneg
  obtain ⟨poss, hok2⟩ := sideExamples_ok answers line.q_id
    ((pySplit line.questionText ' ').take maxlen).length
    (((pySplit line.questionText ' ').take maxlen).map (fun t => (vocab t).getD u))
    ((pySplit line.questionText ' ').take maxlen) 1 line.posField hpos
  exact ⟨negs ++ poss, by rw [hok1, hok2]; rfl⟩

/-- C4: `loadDataset` fails with a `MissingAnswerError` on every input in
which some positive or negative id referenced by a pair line is absent from
the answer pool: the load stops with the error (no example is silently
skipped), the reported id itself being one of the missing ones.  The
vocabulary is assumed to contain `"UNKNOWN"` so that question encoding does
not fail first. -/
theorem loadDataset_missing_answer_fails (vocab : String → Option Nat)
    (maxlen u : Nat) (answers : String → Option (Nat × List Nat × List String))
    (lines : List PairLine) (hu : vocab "UNKNOWN" = some u)
    (hmiss : ∃ l ∈ lines, ∃ aid ∈ lineRefIds l, answers aid = none) :
    ∃ aid, answers aid = none ∧
      loadDataset vocab maxlen answers lines =
        Except.error (DataError.MissingAnswerError aid) := by
  induction lines with
  | nil => obtain ⟨l, hl, _⟩ := hmiss; cases hl
  | cons line rest ih =>
    by_cases hline : ∃ aid ∈ lineRefIds line, answers aid = none
    · obtain ⟨aid, hna, hdl⟩ := datasetLine_error vocab maxlen u answers line hu hline
      refine ⟨aid, hna, ?_⟩
      simp only [loadDataset]
      rw [hdl]
      rfl
    · have hrest : ∃ l ∈ rest, ∃ aid ∈ lineRefIds l, answers aid = none := by
        obtain ⟨l, hl, w⟩ := hmiss
        rcases List.mem_cons.1 hl with rfl | h2
        · exact absurd w hline
        · exact ⟨l, h2, w⟩
      obtain ⟨aid, hna, hld⟩ := ih hrest
      push_neg at hline
      have hall : ∀ aid ∈ lineRefIds line, (answers aid).isSome = true := by
        intro b hb
        cases hans : answers b with
        | none => exact absurd hans (hline b hb)
        | some rec => rfl
      obtain ⟨exs, hexs⟩ := datasetLine_ok vocab maxlen u answers line hu hall
      refine ⟨aid, hna, ?_⟩
      simp only [loadDataset]
      rw [hexs, hld]
      rfl

/-- Witness for C4 at a concrete input: a single pair line referencing the
present answer id `a1` positively and the missing id `zz` negatively. -/
theorem loadDataset_missing_answer_fails_witness :
    ∃ aid, (fun aid => if aid = "a1" then some (1, [5], ["x"]) else none) aid = none ∧
      loadDataset (fun t => if t = "UNKNOWN" then some 0 else none) 5
        (fun aid => if aid = "a1" then some (1, [5], ["x"]) else none)
        [⟨"q1", "hello", "a1", "zz"⟩] =
        Except.error (DataError.MissingAnswerError aid) :=
  loadDataset_missing_answer_fails (fun t => if t = "UNKNOWN" then some 0 else none)
    5 0 (fun aid => if aid = "a1" then some (1, [5], ["x"]) else none)
    [⟨"q1", "hello", "a1", "zz"⟩] (by decide)
    ⟨⟨"q1", "hello", "a1", "zz"⟩, by decide, "zz", by decide, by decide⟩

/- ### Facts about `batch_iter` -/

theorem mapM'_some_length {α β : Type} (f : α → Option β) :
    ∀ (l : List α) (ys : List β), List.mapM' f l = some ys → ys.length = l.length := by
  intro l
  induction l with
  | nil =>
    intro ys h
    rw [List.mapM'_nil] at h
    cases Option.some_injective _ h
    rfl
  | cons a l ih =>
    intro ys h
    rw [List.mapM'_cons] at h
    cases hfa : f a with
    | none => rw [hfa] at h; simp at h
    | some b =>
      rw [hfa] at h
      cases hml : List.mapM' f l with
      | none => rw [hml] at h; simp at h
      | some zs =>
        rw [hml] at h
        simp only [Option.bind_eq_bind, Option.some_bind] at h
        cases Option.some_injective _ h
        simp [ih zs hml]

theorem mapM_some_length {α β : Type} (f : α → Option β) (l : List α) (ys : List β)
    (h : l.mapM f = some ys) : ys.length = l.length := by
  rw [← List.mapM'_eq_mapM] at h
  exact mapM'_some_length f l ys h

theorem mapM'_some_getElem? {α β : Type} (f : α → Option β) :
    ∀ (l : List α) (ys : List β), List.mapM' f l = some ys →
      ∀ (i : Nat) (a : α), l[i]? = some a → ys[i]? = f a := by
  intro l
  induction l with
  | nil => intro ys h i a hi; simp at hi
  | cons x l ih =>
    intro ys h i a hi
    rw [List.mapM'_cons] at h
    cases hfx : f x with
    | none => rw [hfx] at h; simp at h
    | some b =>
      rw [hfx] at h
      cases hml : List.mapM' f l with
      | none => rw [hml] at h; simp at h
      | some zs =>
        rw [hml] at h
        simp only [Option.bind_eq_bind, Option.some_bind] at h
        cases Option.some_injective _ h
        cases i with
        | zero =>
          rw [List.getElem?_cons_zero] at hi
          cases Option.some_injective _ hi
          rw [List.getElem?_cons_zero, hfx]
        | succ j =>
          rw [List.getElem?_cons_succ] at hi
          rw [List.getElem?_cons_succ]
          exact ih zs hml j a hi

theorem mapM_some_getElem? {α β : Type} (f : α → Option β) (l : List α)
    (ys : List β) (h : l.mapM f = some ys) (i : Nat) (a : α)
    (hi : l[i]? = some a) : ys[i]? = f a := by
  rw [← List.mapM'_eq_mapM] at h
  exact mapM'_some_getElem? f l ys h i a hi

theorem mapM_isSome {α β : Type} (f : α → Option β) :
    ∀ l : List α, (∀ a ∈ l, ∃ b, f a = some b) → ∃ ys, l.mapM f = some ys := by
  intro l
  induction l with
  | nil => intro _; exact ⟨[], rfl⟩
  | cons a l ih =>
    intro h
    obtain ⟨b, hb⟩ := h a (List.mem_cons_self a l)
    obtain ⟨ys, hys⟩ := ih (fun x hx => h x (List.mem_cons_of_mem a hx))
    rw [← List.mapM'_eq_mapM] at hys ⊢
    exact ⟨b :: ys, by rw [List.mapM'_cons, hb, hys]; rfl⟩

theorem exampleRow_isSome (tlw : ℚ × ℚ) (idf : Nat → Option ℚ) (maxlen : Nat)
    (charVocab : Char → Option Nat) (mwl : Nat) (ex : Example)
    (h : exampleWF maxlen ex) :
    ∃ row, exampleRow tlw idf maxlen charVocab mwl ex = some row := by
  obtain ⟨h1, h2, h3, h4⟩ := h
  have hwc := word_count_eq ex.q_vec ex.a_vec ex.q_len ex.a_len idf h1 h2
  have hcw := common_words_eq ex.q_vec ex.a_vec ex.q_len ex.a_len h1 h2
  have htf := tfidf_feature_eq ex.q_vec
    ((((ex.q_vec.take ex.q_len).filter (fun x => decide (100 < x))).dedup).filter
      (fun x => decide (x ∈ ((ex.a_vec.take ex.a_len).filter (fun x => decide (100 < x))).dedup)))
    idf
    (fun t ht => common_words_mem_qVec ex.q_vec ex.a_vec ex.q_len ex.a_len t ht)
  obtain ⟨nq, hnq⟩ := Option.isSome_iff_exists.1
    ((normalize_vec_isSome_iff ex.q_vec maxlen).2 h3)
  obtain ⟨na, hna⟩ := Option.isSome_iff_exists.1
    ((normalize_vec_isSome_iff ex.a_vec maxlen).2 h4)
  have hs : (exampleRow tlw idf maxlen charVocab mwl ex).isSome = true := by
    rw [exampleRow, hwc]
    simp only [Option.bind_eq_bind, Option.some_bind]
    rw [hcw]
    simp only [Option.some_bind]
    rw [htf]
    simp only [Option.some_bind]
    rw [hnq]
    simp only [Option.some_bind]
    rw [hna]
    simp only [Option.some_bind]
    rfl
  exact Option.isSome_iff_exists.1 hs

theorem batchOfSlice_spec (tlw : ℚ × ℚ) (idf : Nat → Option ℚ) (maxlen : Nat)
    (charVocab : Char → Option Nat) (mwl : Nat) (slice : List Example)
    (h : ∀ ex ∈ slice, exampleWF maxlen ex) :
    ∃ b, batchOfSlice tlw idf maxlen charVocab mwl slice = some b ∧
      Batch.aligned b slice.length := by
  obtain ⟨rows, hrows⟩ := mapM_isSome _ slice
    (fun ex hex => exampleRow_isSome tlw idf maxlen charVocab mwl ex (h ex hex))
  have hlen := mapM_some_length _ slice rows hrows
  refine ⟨mkBatch rows, ?_, ?_⟩
  · rw [batchOfSlice, hrows]
    rfl
  · rw [← hlen]
    simp [mkBatch, Batch.aligned]

theorem batchSlice_length (d : List Example) (batchSize n bn : Nat)
    (hd : d.length = n) (hbn : bn ≤ n / batchSize) :
    (batchSlice d batchSize n bn).length =
      min ((bn + 1) * batchSize) n - bn * batchSize := by
  rw [batchSlice, List.length_take, List.length_drop, hd]
  have h1 : bn * batchSize ≤ n := by
    calc bn * batchSize ≤ (n / batchSize) * batchSize := Nat.mul_le_mul_right _ hbn
    _ ≤ n := Nat.div_mul_le_self _ _
  have h2 : bn * batchSize ≤ (bn + 1) * batchSize :=
    Nat.mul_le_mul_right _ (by omega)
  omega

theorem batchSlice_subset (d : List Example) (batchSize dataSize bn : Nat) :
    ∀ ex ∈ batchSlice d batchSize dataSize bn, ex ∈ d := by
  intro ex hex
  rw [batchSlice] at hex
  exact List.drop_subset _ d (List.take_subset _ _ hex)

theorem epochBatches_spec (tlw : ℚ × ℚ) (idf : Nat → Option ℚ) (maxlen : Nat)
    (charVocab : Char → Option Nat) (mwl : Nat) (d : List Example)
    (batchSize n : Nat) (hd : d.length = n)
    (hwf : ∀ ex ∈ d, exampleWF maxlen ex) :
    ∃ ebs, epochBatches tlw idf maxlen charVocab mwl d batchSize n
        (n / batchSize + 1) = some ebs ∧
      ebs.length = n / batchSize + 1 ∧
      ∀ i, i < n / batchSize + 1 →
        ∃ b, ebs[i]? = some b ∧
          Batch.aligned b (min ((i + 1) * batchSize) n - i * batchSize) := by
  obtain ⟨ebs, hebs⟩ := mapM_isSome
    (fun bn => batchOfSlice tlw idf maxlen charVocab mwl (batchSlice d batchSize n bn))
    (List.range (n / batchSize + 1))
    (fun i hi => by
      obtain ⟨b, hb1, _⟩ := batchOfSlice_spec tlw idf maxlen charVocab mwl
        (batchSlice d batchSize n i)
        (fun ex hex => hwf ex (batchSlice_subset d batchSize n i ex hex))
      exact ⟨b, hb1⟩)
  have hlen := mapM_some_length _ _ ebs hebs
  rw [List.length_range] at hlen
  refine ⟨ebs, hebs, hlen, ?_⟩
  intro i hi
  obtain ⟨b, hb1, hb2⟩ := batchOfSlice_spec tlw idf maxlen charVocab mwl
    (batchSlice d batchSize n i)
    (fun ex hex => hwf ex (batchSlice_subset d batchSize n i ex hex))
  have hidx : ebs[i]? =
      batchOfSlice tlw idf maxlen charVocab mwl (batchSlice d batchSize n i) :=
    mapM_some_getElem? _ _ ebs hebs i i (by rw [List.getElem?_range hi])
  refine ⟨b, by rw [hidx, hb1], ?_⟩
  rw [batchSlice_length d batchSize n i hd (by omega)] at hb2
  exact hb2

theorem batchIterAux_spec (tlw : ℚ × ℚ) (idf : Nat → Option ℚ) (maxlen : Nat)
    (charVocab : Char → Option Nat) (mwl : Nat) (shuffle : Bool)
    (shuffleFn : Nat → List Example → List Example) (batchSize n : Nat)
    (hperm : ∀ e d, (shuffleFn e d).Perm d) :
    ∀ (k epoch : Nat) (d : List Example), d.length = n →
      (∀ ex ∈ d, exampleWF maxlen ex) →
      ∃ bs, batchIterAux tlw idf maxlen charVocab mwl shuffle shuffleFn batchSize n
          (n / batchSize + 1) k epoch d = some bs ∧
        bs.length = k * (n / batchSize + 1) ∧
        ∀ j, j < bs.length →
          ∃ b, bs[j]? = some b ∧
            Batch.aligned b
              (min ((j % (n / batchSize + 1) + 1) * batchSize) n
                - (j % (n / batchSize + 1)) * batchSize) := by
  intro k
  induction k with
  | zero =>
    intro epoch d hd hwf
    exact ⟨[], rfl, by simp, fun j hj => absurd hj (by simp)⟩
  | succ m ih =>
    intro epoch d hd hwf
    have hd2p : (if shuffle then shuffleFn epoch d else d).Perm d := by
      cases shuffle
      · simp
      · simp [hperm epoch d]
    have hd2len : (if shuffle then shuffleFn epoch d else d).length = n := by
      rw [hd2p.length_eq, hd]
    have hd2wf : ∀ ex ∈ (if shuffle then shuffleFn epoch d else d),
        exampleWF maxlen ex := fun ex hex => hwf ex (hd2p.mem_iff.1 hex)
    obtain ⟨ebs, hebs, helen, hidx⟩ := epochBatches_spec tlw idf maxlen charVocab mwl
      (if shuffle then shuffleFn epoch d else d) batchSize n hd2len hd2wf
    obtain ⟨rest, hrest, hrlen, hridx⟩ := ih (epoch + 1)
      (if shuffle then shuffleFn epoch d else d) hd2len hd2wf
    have hsplit : (m + 1) * (n / batchSize + 1)
        = (n / batchSize + 1) + m * (n / batchSize + 1) := by ring
    refine ⟨ebs ++ rest, ?_, ?_, ?_⟩
    · rw [batchIterAux]
      rw [hebs]
      simp only [Option.bind_eq_bind, Option.some_bind]
      rw [hrest]
      rfl
    · rw [List.length_append, helen, hrlen, hsplit]
    · intro j hj
      rw [List.length_append, helen, hrlen] at hj
      by_cases hjlt : j < n / batchSize + 1
      · obtain ⟨b, hb1, hb2⟩ := hidx j hjlt
        refine ⟨b, ?_, ?_⟩
        · rw [List.getElem?_append_left (by rw [helen]; exact hjlt)]
          exact hb1
        · rw [Nat.mod_eq_of_lt hjlt]
          exact hb2
      · have hge : n / batchSize + 1 ≤ j := Nat.le_of_not_lt hjlt
        obtain ⟨b, hb1, hb2⟩ := hridx (j - (n / batchSize + 1))
          (by rw [hrlen]; omega)
        refine ⟨b, ?_, ?_⟩
        · rw [List.getElem?_append_right (by rw [helen]; exact hge), helen]
          exact hb1
        · have hj2 : j = (n / batchSize + 1) + (j - (n / batchSize + 1)) := by omega
          rw [hj2, Nat.add_mod_left]
          exact hb2

/-- C3: for every dataset of well-formed examples and every positive batch
size, the batch generator returns normally (never fails) and yields exactly
`numEpochs · (floor(n / b) + 1)` batches; the batch at flat position `j`
belongs to within-epoch batch index `i = j mod (floor(n / b) + 1)` and all
fourteen of its columns have exactly `min((i + 1)·b, n) − i·b` rows — in
particular the last batch of each epoch has `n mod b` rows, which is zero
(an empty but structurally complete batch) when `b` divides `n`.
`random.shuffle` is modelled by an arbitrary epoch-indexed permutation. -/
theorem batch_iter_spec (data : List Example) (batchSize numEpochs : Nat)
    (tlw : ℚ × ℚ) (idf : Nat → Option ℚ) (maxlen : Nat)
    (charVocab : Char → Option Nat) (mwl : Nat) (shuffle : Bool)
    (shuffleFn : Nat → List Example → List Example)
    (hb : 0 < batchSize)
    (hwf : ∀ ex ∈ data, exampleWF maxlen ex)
    (hperm : ∀ e d, (shuffleFn e d).Perm d) :
    ∃ bs, batch_iter data batchSize numEpochs tlw idf maxlen charVocab mwl
        shuffle shuffleFn = some bs ∧
      bs.length = numEpochs * (data.length / batchSize + 1) ∧
      (∀ j, j < bs.length →
        ∃ b, bs[j]? = some b ∧
          Batch.aligned b
            (min ((j % (data.length / batchSize + 1) + 1) * batchSize) data.length
              - (j % (data.length / batchSize + 1)) * batchSize)) ∧
      min ((data.length / batchSize + 1) * batchSize) data.length
        - (data.length / batchSize) * batchSize = data.length % batchSize := by
  obtain ⟨bs, h1, h2, h3⟩ := batchIterAux_spec tlw idf maxlen charVocab mwl
    shuffle shuffleFn batchSize data.length hperm numEpochs 0 data rfl hwf
  refine ⟨bs, h1, h2, h3, ?_⟩
  have hmod : batchSize * (data.length / batchSize) + data.length % batchSize
      = data.length := Nat.div_add_mod data.length batchSize
  have hmod2 : (data.length / batchSize) * batchSize + data.length % batchSize
      = data.length := by rw [Nat.mul_comm] at hmod; exact hmod
  have hlt : data.length % batchSize < batchSize := Nat.mod_lt _ hb
  have hexp : (data.length / batchSize + 1) * batchSize
      = (data.length / batchSize) * batchSize + batchSize := by ring
  omega

/-- Witness for C3 at a concrete input: three well-formed examples, batch
size 2, two epochs, shuffling disabled (identity permutation).  Each epoch
yields two batches of 2 and 1 rows. -/
theorem batch_iter_spec_witness :
    ∃ bs, batch_iter
        [⟨"q1", 1, [101], "a1", 1, [102], 1, ["w"], ["v"]⟩,
         ⟨"q2", 1, [103], "a2", 1, [104], 0, ["x"], ["y"]⟩,
         ⟨"q3", 0, [], "a3", 0, [], 1, [], []⟩]
        2 2 (2, 3) (fun _ => none) 4 (fun _ => none) 2 false (fun _ d => d)
        = some bs ∧
      bs.length = 2 * (3 / 2 + 1) ∧
      (∀ j, j < bs.length →
        ∃ b, bs[j]? = some b ∧
          Batch.aligned b (min ((j % (3 / 2 + 1) + 1) * 2) 3 - (j % (3 / 2 + 1)) * 2)) ∧
      min ((3 / 2 + 1) * 2) 3 - (3 / 2) * 2 = 3 % 2 := by
  have H := batch_iter_spec
    [⟨"q1", 1, [101], "a1", 1, [102], 1, ["w"], ["v"]⟩,
     ⟨"q2", 1, [103], "a2", 1, [104], 0, ["x"], ["y"]⟩,
     ⟨"q3", 0, [], "a3", 0, [], 1, [], []⟩]
    2 2 (2, 3) (fun _ => none) 4 (fun _ => none) 2 false (fun _ d => d)
    (by decide) (by decide) (fun _ d => List.Perm.refl d)
  exact H

end AnswerSelection
